import Mathlib

/-!
# Verification of the GraphRAG frontend auth/persistence logic

Shallow embedding of `src/frontend/src/auth/security.py`,
`src/frontend/src/auth/db.py` and
`src/frontend/src/components/md_formatter.py`.

Python strings are modelled as lists of Unicode scalar values (`List Nat`),
timestamps (`time.time()`) as integers, the Cosmos user container and the
in-memory `login_attempts` dict as functions from usernames to optional
records, and the blob container as a function from blob names to optional
blob data.  Each call to a Python function that reads the clock takes the
current time as an explicit parameter.
-/

/-- A Python string, as its list of Unicode code points. -/
abbrev PyStr := List Nat

/-! ## `src/auth/models.py` -/

/-- `models.py`: the pydantic `User` model. -/
structure User where
  id : String
  username : String
  salt : Int
  hashpassword : String
  permissions : List String
  graphragindexes : List String
  accountstatus : String
deriving DecidableEq

/-! ## `src/auth/db.py`: the user container operations used by the throttle -/

/-- Pointwise update of a lookup table. -/
def updMap {α : Type} (m : String → Option α) (k : String) (v : Option α) :
    String → Option α :=
  fun x => if x = k then v else m x

/-- `db.py::deactivate_user`: flip `accountstatus` to `"Inactive"` when the
user exists (returning `True`), otherwise leave the store alone and return
`False`.  The Cosmos container is the `String → Option User` map. -/
def deactivate_user (username : String) (users : String → Option User) :
    (String → Option User) × Bool :=
  match users username with
  | some user => (updMap users username (some { user with accountstatus := "Inactive" }), true)
  | none => (users, false)

/-! ## `src/auth/security.py`: the login throttle -/

/-- `security.py`: `LOCKOUT_THRESHOLD = 5`. -/
def LOCKOUT_THRESHOLD : Nat := 5

/-- `security.py`: `LOCKOUT_TIME = 600` (seconds). -/
def LOCKOUT_TIME : Int := 600

/-- One entry of the module-level `login_attempts` dict:
`{"count": ..., "last_attempt_time": ...}`. -/
structure AttemptRecord where
  count : Nat
  last_attempt_time : Int
deriving DecidableEq

/-- The process state the throttle touches: the in-memory `login_attempts`
dict and the persisted user accounts. -/
structure SysState where
  attempts : String → Option AttemptRecord
  users : String → Option User

/-- `security.py::record_failed_attempt(username)` at clock value `now`:
increment the counter (creating `{"count": 1, "last_attempt_time": now}` on
first failure), then deactivate the account when the counter has reached
`LOCKOUT_THRESHOLD` and the first-in-window failure is less than
`LOCKOUT_TIME` seconds old. -/
def record_failed_attempt (now : Int) (username : String) (s : SysState) : SysState :=
  let newRec : AttemptRecord :=
    match s.attempts username with
    | some r => { r with count := r.count + 1 }
    | none => { count := 1, last_attempt_time := now }
  let attempts1 := updMap s.attempts username (some newRec)
  if LOCKOUT_THRESHOLD ≤ newRec.count ∧ now - newRec.last_attempt_time < LOCKOUT_TIME then
    { attempts := attempts1, users := (deactivate_user username s.users).1 }
  else
    { attempts := attempts1, users := s.users }

/-- `security.py::is_account_locked(username)` at clock value `now`: returns
the boolean result together with the state after the call (the function
mutates `login_attempts` when the window has expired, and never touches the
user store). -/
def is_account_locked (now : Int) (username : String) (s : SysState) : Bool × SysState :=
  match s.attempts username with
  | none => (false, s)
  | some attempts =>
    if LOCKOUT_THRESHOLD ≤ attempts.count ∧ now - attempts.last_attempt_time < LOCKOUT_TIME then
      (true, s)
    else if LOCKOUT_TIME < now - attempts.last_attempt_time then
      (false, { s with attempts := updMap s.attempts username (some { attempts with count := 0 }) })
    else
      (false, s)

/-- `security.py::reset_failed_attempts(username)`: zero the counter when an
entry exists. -/
def reset_failed_attempts (username : String) (s : SysState) : SysState :=
  match s.attempts username with
  | some r => { s with attempts := updMap s.attempts username (some { r with count := 0 }) }
  | none => s

/-- The three throttle entry points, as events of a trace. -/
inductive AuthOp where
  | record (now : Int) (username : String)
  | checkLock (now : Int) (username : String)
  | reset (username : String)
deriving DecidableEq

/-- Effect of one throttle call on the state. -/
def applyOp : AuthOp → SysState → SysState
  | .record now u, s => record_failed_attempt now u s
  | .checkLock now u, s => (is_account_locked now u s).2
  | .reset u, s => reset_failed_attempts u s

/-- Effect of a sequence of throttle calls. -/
def applyOps (ops : List AuthOp) (s : SysState) : SysState :=
  ops.foldl (fun s op => applyOp op s) s

/-- Timestamp of the first `record_failed_attempt` call for `u` in a trace. -/
def firstRecordTime : List AuthOp → String → Option Int
  | [], _ => none
  | .record t v :: ops, u => if v = u then some t else firstRecordTime ops u
  | .checkLock _ _ :: ops, u => firstRecordTime ops u
  | .reset _ :: ops, u => firstRecordTime ops u

/-! ### Basic update lemmas -/

theorem updMap_same {α : Type} (m : String → Option α) (k : String) (v : Option α) :
    updMap m k v k = v := by
  simp [updMap]

theorem updMap_other {α : Type} (m : String → Option α) (k x : String) (v : Option α)
    (h : x ≠ k) : updMap m k v x = m x := by
  simp [updMap, h]

/-- `deactivate_user` only ever touches the entry of the named user. -/
theorem deactivate_user_other (v u : String) (users : String → Option User)
    (h : u ≠ v) : (deactivate_user v users).1 u = users u := by
  unfold deactivate_user
  cases users v with
  | none => rfl
  | some usr => simp [updMap_other _ _ _ _ h]

/-- `record_failed_attempt` never changes another user's attempt entry. -/
theorem record_attempts_other (now : Int) (v u : String) (s : SysState) (h : u ≠ v) :
    (record_failed_attempt now v s).attempts u = s.attempts u := by
  unfold record_failed_attempt
  by_cases hc : LOCKOUT_THRESHOLD ≤ (match s.attempts v with
      | some r => { r with count := r.count + 1 }
      | none => { count := 1, last_attempt_time := now } : AttemptRecord).count ∧
      now - (match s.attempts v with
      | some r => { r with count := r.count + 1 }
      | none => { count := 1, last_attempt_time := now } : AttemptRecord).last_attempt_time < LOCKOUT_TIME
  · simp only [hc, if_pos]
    exact updMap_other _ _ _ _ h
  · simp only [hc, if_neg, not_false_iff]
    exact updMap_other _ _ _ _ h

/-- `is_account_locked` never changes the user store. -/
theorem is_account_locked_users (now : Int) (u : String) (s : SysState) :
    ((is_account_locked now u s).2).users = s.users := by
  unfold is_account_locked
  cases s.attempts u with
  | none => rfl
  | some r =>
    by_cases h1 : LOCKOUT_THRESHOLD ≤ r.count ∧ now - r.last_attempt_time < LOCKOUT_TIME
    · simp [h1]
    · by_cases h2 : LOCKOUT_TIME < now - r.last_attempt_time
      · simp [h1, h2]
      · simp [h1, h2]

/-- `reset_failed_attempts` never changes the user store. -/
theorem reset_failed_attempts_users (u : String) (s : SysState) :
    (reset_failed_attempts u s).users = s.users := by
  unfold reset_failed_attempts
  cases s.attempts u with
  | none => rfl
  | some r => rfl

/-- No throttle call ever changes `last_attempt_time` of an existing entry,
and no call ever removes the entry. -/
theorem applyOp_last_attempt_time (op : AuthOp) (u : String) (s : SysState)
    (r : AttemptRecord) (h : s.attempts u = some r) :
    ∃ c, (applyOp op s).attempts u = some ⟨c, r.last_attempt_time⟩ := by
  cases op with
  | record now v =>
    show ∃ c, (record_failed_attempt now v s).attempts u = _
    by_cases hv : u = v
    · subst hv
      refine ⟨r.count + 1, ?_⟩
      unfold record_failed_attempt
      rw [h]
      by_cases hc : LOCKOUT_THRESHOLD ≤ r.count + 1 ∧ now - r.last_attempt_time < LOCKOUT_TIME
      · simp only [hc, if_pos]
        exact updMap_same _ _ _
      · simp only [hc, if_neg, not_false_iff]
        exact updMap_same _ _ _
    · refine ⟨r.count, ?_⟩
      rw [record_attempts_other now v u s hv, h]
  | checkLock now v =>
    show ∃ c, ((is_account_locked now v s).2).attempts u = _
    unfold is_account_locked
    by_cases hv : u = v
    · subst hv
      rw [h]
      by_cases h1 : LOCKOUT_THRESHOLD ≤ r.count ∧ now - r.last_attempt_time < LOCKOUT_TIME
      · exact ⟨r.count, by simp [h1, h]⟩
      · by_cases h2 : LOCKOUT_TIME < now - r.last_attempt_time
        · exact ⟨0, by simp [h1, h2, updMap_same]⟩
        · exact ⟨r.count, by simp [h1, h2, h]⟩
    · cases hsv : s.attempts v with
      | none => exact ⟨r.count, by simp [hsv, h]⟩
      | some rv =>
        by_cases h1 : LOCKOUT_THRESHOLD ≤ rv.count ∧ now - rv.last_attempt_time < LOCKOUT_TIME
        · exact ⟨r.count, by simp [hsv, h1, h]⟩
        · by_cases h2 : LOCKOUT_TIME < now - rv.last_attempt_time
          · exact ⟨r.count, by simp [hsv, h1, h2, updMap_other _ _ _ _ hv, h]⟩
          · exact ⟨r.count, by simp [hsv, h1, h2, h]⟩
  | reset v =>
    show ∃ c, (reset_failed_attempts v s).attempts u = _
    unfold reset_failed_attempts
    by_cases hv : u = v
    · subst hv
      rw [h]
      exact ⟨0, by simp [updMap_same]⟩
    · cases hsv : s.attempts v with
      | none => exact ⟨r.count, by simp [hsv, h]⟩
      | some rv => exact ⟨r.count, by simp [hsv, updMap_other _ _ _ _ hv, h]⟩

/-- While no `record_failed_attempt` call for `u` has happened, `u` has no
attempt entry. -/
theorem applyOp_absent (op : AuthOp) (u : String) (s : SysState)
    (h : s.attempts u = none) (hop : ∀ t, op ≠ AuthOp.record t u) :
    (applyOp op s).attempts u = none := by
  cases op with
  | record now v =>
    have hv : u ≠ v := by
      intro he; exact hop now (by rw [he])
    rw [show applyOp (AuthOp.record now v) s = record_failed_attempt now v s from rfl,
      record_attempts_other now v u s hv, h]
  | checkLock now v =>
    show ((is_account_locked now v s).2).attempts u = none
    unfold is_account_locked
    cases hsv : s.attempts v with
    | none => simpa using h
    | some rv =>
      by_cases hv : u = v
      · subst hv; rw [h] at hsv; cases hsv
      · by_cases h1 : LOCKOUT_THRESHOLD ≤ rv.count ∧ now - rv.last_attempt_time < LOCKOUT_TIME
        · simpa [h1] using h
        · by_cases h2 : LOCKOUT_TIME < now - rv.last_attempt_time
          · simp [h1, h2, updMap_other _ _ _ _ hv, h]
          · simpa [h1, h2] using h
  | reset v =>
    show (reset_failed_attempts v s).attempts u = none
    unfold reset_failed_attempts
    cases hsv : s.attempts v with
    | none => simpa using h
    | some rv =>
      by_cases hv : u = v
      · subst hv; rw [h] at hsv; cases hsv
      · simp [updMap_other _ _ _ _ hv, h]

/-- Over a whole trace, `last_attempt_time` of an existing entry is frozen. -/
theorem applyOps_last_attempt_time (ops : List AuthOp) (u : String) :
    ∀ (s : SysState) (r₀ : AttemptRecord), s.attempts u = some r₀ →
    ∃ c, (applyOps ops s).attempts u = some ⟨c, r₀.last_attempt_time⟩ := by
  induction ops with
  | nil =>
    intro s r₀ h
    exact ⟨r₀.count, by simpa [applyOps] using h⟩
  | cons op ops ih =>
    intro s r₀ h
    obtain ⟨c, hc⟩ := applyOp_last_attempt_time op u s r₀ h
    obtain ⟨c', hc'⟩ := ih (applyOp op s) ⟨c, r₀.last_attempt_time⟩ hc
    exact ⟨c', by simpa [applyOps] using hc'⟩

/-! ### Step lemmas for `record_failed_attempt` -/

/-- First failure: a fresh entry `{"count": 1, "last_attempt_time": now}` is
created and (since `1 < LOCKOUT_THRESHOLD`) nobody is deactivated. -/
theorem record_first (now : Int) (u : String) (s : SysState)
    (h : s.attempts u = none) :
    record_failed_attempt now u s
      = { attempts := updMap s.attempts u (some ⟨1, now⟩), users := s.users } := by
  unfold record_failed_attempt
  rw [h]
  have : ¬(LOCKOUT_THRESHOLD ≤ (1 : Nat) ∧ now - now < LOCKOUT_TIME) := by
    intro hc
    exact absurd hc.1 (by norm_num [LOCKOUT_THRESHOLD])
  simp only [this, if_neg, not_false_iff]

/-- A repeat failure that does not trip the lockout condition only bumps the
counter. -/
theorem record_step_noLock (now : Int) (u : String) (s : SysState) (r : AttemptRecord)
    (h : s.attempts u = some r)
    (hc : r.count + 1 < LOCKOUT_THRESHOLD ∨ ¬(now - r.last_attempt_time < LOCKOUT_TIME)) :
    record_failed_attempt now u s
      = { attempts := updMap s.attempts u (some ⟨r.count + 1, r.last_attempt_time⟩),
          users := s.users } := by
  unfold record_failed_attempt
  rw [h]
  have : ¬(LOCKOUT_THRESHOLD ≤ r.count + 1 ∧ now - r.last_attempt_time < LOCKOUT_TIME) := by
    intro hcc
    rcases hc with hc | hc
    · exact absurd hcc.1 (by omega)
    · exact hc hcc.2
  simp only [this, if_neg, not_false_iff]

/-- A repeat failure that trips the lockout condition bumps the counter and
calls `deactivate_user`. -/
theorem record_step_lock (now : Int) (u : String) (s : SysState) (r : AttemptRecord)
    (h : s.attempts u = some r) (hc : LOCKOUT_THRESHOLD ≤ r.count + 1)
    (ht : now - r.last_attempt_time < LOCKOUT_TIME) :
    record_failed_attempt now u s
      = { attempts := updMap s.attempts u (some ⟨r.count + 1, r.last_attempt_time⟩),
          users := (deactivate_user u s.users).1 } := by
  unfold record_failed_attempt
  rw [h]
  have hcc : LOCKOUT_THRESHOLD ≤ r.count + 1 ∧ now - r.last_attempt_time < LOCKOUT_TIME :=
    ⟨hc, ht⟩
  simp only [hcc.1, hcc.2, and_self, if_true]

/-- `record_failed_attempt` for one user never changes another user's
persisted account. -/
theorem record_users_other (now : Int) (v u : String) (s : SysState) (hv : u ≠ v) :
    (record_failed_attempt now v s).users u = s.users u := by
  unfold record_failed_attempt
  by_cases hc : LOCKOUT_THRESHOLD ≤ (match s.attempts v with
      | some r => { r with count := r.count + 1 }
      | none => { count := 1, last_attempt_time := now } : AttemptRecord).count ∧
      now - (match s.attempts v with
      | some r => { r with count := r.count + 1 }
      | none => { count := 1, last_attempt_time := now } : AttemptRecord).last_attempt_time < LOCKOUT_TIME
  · simp only [hc, if_pos]
    exact deactivate_user_other v u s.users hv
  · simp only [hc, if_neg, not_false_iff]

/-- A failure recorded when the existing entry is already older than the
window never touches the user store. -/
theorem record_users_stale (now : Int) (u : String) (s : SysState) (r : AttemptRecord)
    (h : s.attempts u = some r) (ht : ¬(now - r.last_attempt_time < LOCKOUT_TIME)) :
    (record_failed_attempt now u s).users = s.users := by
  unfold record_failed_attempt
  rw [h]
  have : ¬(LOCKOUT_THRESHOLD ≤ r.count + 1 ∧ now - r.last_attempt_time < LOCKOUT_TIME) :=
    fun hc => ht hc.2
  simp only [this, if_neg, not_false_iff]

/-- Four failures recorded for a fresh username: counter 4, first-failure
timestamp kept, no deactivation. -/
theorem record_four_steps (s : SysState) (u : String) (habs : s.attempts u = none)
    (t1 t2 t3 t4 : Int) :
    (record_failed_attempt t4 u (record_failed_attempt t3 u
        (record_failed_attempt t2 u (record_failed_attempt t1 u s)))).attempts u
      = some ⟨4, t1⟩
    ∧ (record_failed_attempt t4 u (record_failed_attempt t3 u
        (record_failed_attempt t2 u (record_failed_attempt t1 u s)))).users = s.users := by
  have h1 := record_first t1 u s habs
  have e1 : (record_failed_attempt t1 u s).attempts u = some ⟨1, t1⟩ := by
    rw [h1]; exact updMap_same _ _ _
  have h2 := record_step_noLock t2 u _ ⟨1, t1⟩ e1
    (Or.inl (by norm_num [LOCKOUT_THRESHOLD]))
  have e2 : (record_failed_attempt t2 u (record_failed_attempt t1 u s)).attempts u
      = some ⟨2, t1⟩ := by
    rw [h2]; exact updMap_same _ _ _
  have h3 := record_step_noLock t3 u _ ⟨2, t1⟩ e2
    (Or.inl (by norm_num [LOCKOUT_THRESHOLD]))
  have e3 : (record_failed_attempt t3 u (record_failed_attempt t2 u
      (record_failed_attempt t1 u s))).attempts u = some ⟨3, t1⟩ := by
    rw [h3]; exact updMap_same _ _ _
  have h4 := record_step_noLock t4 u _ ⟨3, t1⟩ e3
    (Or.inl (by norm_num [LOCKOUT_THRESHOLD]))
  have e4 : (record_failed_attempt t4 u (record_failed_attempt t3 u
      (record_failed_attempt t2 u (record_failed_attempt t1 u s)))).attempts u
      = some ⟨4, t1⟩ := by
    rw [h4]; exact updMap_same _ _ _
  refine ⟨e4, ?_⟩
  rw [h4, h3, h2, h1]

/-- C1: for every username, 5 `record_failed_attempt` calls all within
`LOCKOUT_TIME` of the first-in-window failure flip the persisted account
status to `"Inactive"`, while a fifth failure arriving only after the window
has elapsed (without 5 within-window failures) leaves the account exactly as
it was. -/
theorem C1_five_failures_within_window_deactivate (s : SysState) (u : String) (usr : User)
    (habs : s.attempts u = none) (husr : s.users u = some usr)
    (a1 a2 a3 a4 a5 : Int)
    (ha2 : a1 ≤ a2 ∧ a2 - a1 < LOCKOUT_TIME) (ha3 : a1 ≤ a3 ∧ a3 - a1 < LOCKOUT_TIME)
    (ha4 : a1 ≤ a4 ∧ a4 - a1 < LOCKOUT_TIME) (ha5 : a1 ≤ a5 ∧ a5 - a1 < LOCKOUT_TIME)
    (b1 b2 b3 b4 b5 : Int)
    (hb2 : b1 ≤ b2 ∧ b2 - b1 < LOCKOUT_TIME) (hb3 : b1 ≤ b3 ∧ b3 - b1 < LOCKOUT_TIME)
    (hb4 : b1 ≤ b4 ∧ b4 - b1 < LOCKOUT_TIME) (hb5 : LOCKOUT_TIME ≤ b5 - b1) :
    (record_failed_attempt a5 u (record_failed_attempt a4 u (record_failed_attempt a3 u
        (record_failed_attempt a2 u (record_failed_attempt a1 u s))))).users u
      = some { usr with accountstatus := "Inactive" }
    ∧ (record_failed_attempt b5 u (record_failed_attempt b4 u (record_failed_attempt b3 u
        (record_failed_attempt b2 u (record_failed_attempt b1 u s))))).users u
      = some usr := by
  constructor
  · obtain ⟨e4, eu⟩ := record_four_steps s u habs a1 a2 a3 a4
    have h5 := record_step_lock a5 u _ ⟨4, a1⟩ e4 (by norm_num [LOCKOUT_THRESHOLD]) ha5.2
    rw [h5]
    show (deactivate_user u (record_failed_attempt a4 u (record_failed_attempt a3 u
        (record_failed_attempt a2 u (record_failed_attempt a1 u s)))).users).1 u = _
    rw [eu]
    unfold deactivate_user
    rw [husr]
    exact updMap_same _ _ _
  · obtain ⟨e4, eu⟩ := record_four_steps s u habs b1 b2 b3 b4
    have h5 := record_step_noLock b5 u _ ⟨4, b1⟩ e4 (Or.inr (by simpa using by omega))
    rw [h5]
    show (record_failed_attempt b4 u (record_failed_attempt b3 u
        (record_failed_attempt b2 u (record_failed_attempt b1 u s)))).users u = some usr
    rw [eu, husr]

/-- C4: once the window has elapsed (`now` is more than `LOCKOUT_TIME` past
the recorded first-failure timestamp), `is_account_locked` on a counter at
or above threshold returns `false`, zeroes the counter, and leaves the user
store — an already-`"Inactive"` status included — untouched. -/
theorem C4_expired_window_resets_counter_not_status (now : Int) (u : String)
    (s : SysState) (r : AttemptRecord)
    (h : s.attempts u = some r) (hc : LOCKOUT_THRESHOLD ≤ r.count)
    (ht : LOCKOUT_TIME < now - r.last_attempt_time) :
    (is_account_locked now u s).1 = false
    ∧ ((is_account_locked now u s).2).attempts u = some { r with count := 0 }
    ∧ ((is_account_locked now u s).2).users = s.users := by
  unfold is_account_locked
  rw [h]
  have h1 : ¬(LOCKOUT_THRESHOLD ≤ r.count ∧ now - r.last_attempt_time < LOCKOUT_TIME) := by
    intro hcc
    omega
  simp only [h1, if_neg, not_false_iff, ht, if_pos]
  exact ⟨trivial, updMap_same _ _ _, trivial⟩

/-- C5: `record_failed_attempt` on an existing entry increments only the
counter and keeps `last_attempt_time`; consequently, in any state reached by
a trace of throttle calls starting from a state where the username had no
entry, the stored `last_attempt_time` is the clock value of the trace's
first `record_failed_attempt` call for that username. -/
theorem C5_last_attempt_time_is_first_failure :
    (∀ (now : Int) (u : String) (s : SysState) (r : AttemptRecord),
        s.attempts u = some r →
        (record_failed_attempt now u s).attempts u
          = some { count := r.count + 1, last_attempt_time := r.last_attempt_time })
    ∧ (∀ (ops : List AuthOp) (u : String) (s : SysState) (r : AttemptRecord),
        s.attempts u = none → (applyOps ops s).attempts u = some r →
        firstRecordTime ops u = some r.last_attempt_time) := by
  constructor
  · intro now u s r h
    unfold record_failed_attempt
    rw [h]
    by_cases hc : LOCKOUT_THRESHOLD ≤ r.count + 1 ∧ now - r.last_attempt_time < LOCKOUT_TIME
    · simp only [hc, if_pos]
      exact updMap_same _ _ _
    · simp only [hc, if_neg, not_false_iff]
      exact updMap_same _ _ _
  · intro ops
    induction ops with
    | nil =>
      intro u s r habs hfin
      rw [show applyOps [] s = s from rfl, habs] at hfin
      cases hfin
    | cons op ops ih =>
      intro u s r habs hfin
      by_cases hop : ∃ t, op = AuthOp.record t u
      · obtain ⟨t, rfl⟩ := hop
        have e1 : (applyOp (AuthOp.record t u) s).attempts u = some ⟨1, t⟩ := by
          show (record_failed_attempt t u s).attempts u = _
          rw [record_first t u s habs]
          exact updMap_same _ _ _
        obtain ⟨c, hc⟩ :=
          applyOps_last_attempt_time ops u (applyOp (AuthOp.record t u) s) ⟨1, t⟩ e1
        rw [show applyOps (AuthOp.record t u :: ops) s
            = applyOps ops (applyOp (AuthOp.record t u) s) from rfl, hc] at hfin
        cases hfin
        simp [firstRecordTime]
      · have habs' : (applyOp op s).attempts u = none :=
          applyOp_absent op u s habs (fun t he => hop ⟨t, he⟩)
        have hfin' : (applyOps ops (applyOp op s)).attempts u = some r := hfin
        have := ih u (applyOp op s) r habs' hfin'
        cases op with
        | record t v =>
          have hv : ¬(v = u) := fun he => hop ⟨t, by rw [he]⟩
          simpa [firstRecordTime, hv] using this
        | checkLock t v => simpa [firstRecordTime] using this
        | reset v => simpa [firstRecordTime] using this

/-- C6: right after `reset_failed_attempts(username)`, `is_account_locked`
reports `false`, whatever the prior attempt table held. -/
theorem C6_not_locked_after_reset (now : Int) (u : String) (s : SysState) :
    (is_account_locked now u (reset_failed_attempts u s)).1 = false := by
  unfold reset_failed_attempts
  cases h : s.attempts u with
  | none =>
    unfold is_account_locked
    rw [h]
  | some r =>
    unfold is_account_locked
    rw [show ({ s with attempts := updMap s.attempts u (some { r with count := 0 }) }
        : SysState).attempts u = some { r with count := 0 } from updMap_same _ _ _]
    have h1 : ¬(LOCKOUT_THRESHOLD ≤ (0 : Nat) ∧
        now - r.last_attempt_time < LOCKOUT_TIME) := by
      intro hc
      exact absurd hc.1 (by norm_num [LOCKOUT_THRESHOLD])
    simp only [h1, if_neg, not_false_iff]
    by_cases h2 : LOCKOUT_TIME < now - r.last_attempt_time
    · simp only [h2, if_pos]
    · simp only [h2, if_neg, not_false_iff]

/-- C10: once a username's attempt entry is older than the window, no later
trace of throttle calls — with every further `record_failed_attempt` for
that username arriving more than `LOCKOUT_TIME` after the entry's stale
`last_attempt_time` — can change that user's persisted account: the stale
first-failure timestamp makes the deactivation condition unsatisfiable. -/
theorem C10_stale_entry_blocks_deactivation (s : SysState) (u : String)
    (r₀ : AttemptRecord) (ops : List AuthOp) (h : s.attempts u = some r₀)
    (hops : ∀ t, AuthOp.record t u ∈ ops → LOCKOUT_TIME < t - r₀.last_attempt_time) :
    (applyOps ops s).users u = s.users u := by
  induction ops generalizing s r₀ with
  | nil => rfl
  | cons op ops ih =>
    have step : (applyOp op s).users u = s.users u := by
      cases op with
      | record t v =>
        by_cases hv : v = u
        · subst hv
          have ht := hops t (List.mem_cons_self _ _)
          show (record_failed_attempt t v s).users v = s.users v
          rw [record_users_stale t v s r₀ h (by omega)]
        · exact record_users_other t v u s (fun he => hv he.symm)
      | checkLock t v =>
        show ((is_account_locked t v s).2).users u = s.users u
        rw [is_account_locked_users]
      | reset v =>
        show (reset_failed_attempts v s).users u = s.users u
        rw [reset_failed_attempts_users]
    obtain ⟨c, hc⟩ := applyOp_last_attempt_time op u s r₀ h
    have hops' : ∀ t, AuthOp.record t u ∈ ops →
        LOCKOUT_TIME < t - (⟨c, r₀.last_attempt_time⟩ : AttemptRecord).last_attempt_time :=
      fun t hmem => hops t (List.mem_cons_of_mem _ hmem)
    have := ih (applyOp op s) ⟨c, r₀.last_attempt_time⟩ hc hops'
    rw [show applyOps (op :: ops) s = applyOps ops (applyOp op s) from rfl, this, step]

/-! ### Concrete states for witnesses -/

/-- A concrete active user. -/
def testUser : User :=
  { id := "alice", username := "alice", salt := 12, hashpassword := "h",
    permissions := [], graphragindexes := [], accountstatus := "Active" }

/-- A state with no recorded attempts and one active user. -/
def testState : SysState :=
  { attempts := fun _ => none,
    users := fun x => if x = "alice" then some testUser else none }

/-- A state whose one attempt entry is at the threshold with a stale
timestamp, account already deactivated. -/
def lockState : SysState :=
  { attempts := fun x => if x = "alice" then some ⟨5, 0⟩ else none,
    users := fun x =>
      if x = "alice" then some { testUser with accountstatus := "Inactive" } else none }

/-- A state with an existing entry of count 3 at time 0 for one user. -/
def staleState : SysState :=
  { attempts := fun x => if x = "alice" then some ⟨3, 0⟩ else none,
    users := fun x => if x = "alice" then some testUser else none }

/-- A state with empty attempt table and empty user store. -/
def emptyState : SysState :=
  { attempts := fun _ => none, users := fun _ => none }

/-- A demonstration trace: first failure at 5, lock check at 700 (window
expired, counter cleared), another failure at 800. -/
def demoOps : List AuthOp :=
  [.record 5 "alice", .checkLock 700 "alice", .record 800 "alice"]

/-- A trace of three late failures, all more than the window after time 0. -/
def staleOps : List AuthOp :=
  [.record 601 "alice", .record 602 "alice", .record 603 "alice"]

/-- Witness for C1 on a concrete user: failures at 0,1,2,3,4 deactivate
"alice", failures at 0,1,2,3 and then 700 leave the account active. -/
theorem C1_five_failures_within_window_deactivate_witness :
    (record_failed_attempt 4 "alice" (record_failed_attempt 3 "alice"
        (record_failed_attempt 2 "alice" (record_failed_attempt 1 "alice"
        (record_failed_attempt 0 "alice" testState))))).users "alice"
      = some { testUser with accountstatus := "Inactive" }
    ∧ (record_failed_attempt 700 "alice" (record_failed_attempt 3 "alice"
        (record_failed_attempt 2 "alice" (record_failed_attempt 1 "alice"
        (record_failed_attempt 0 "alice" testState))))).users "alice"
      = some testUser :=
  C1_five_failures_within_window_deactivate testState "alice" testUser rfl rfl
    0 1 2 3 4 (by decide) (by decide) (by decide) (by decide)
    0 1 2 3 700 (by decide) (by decide) (by decide) (by decide)

/-- Witness for C4: at time 700 on a threshold-count entry stamped 0, the
check returns false, zeroes the counter, and the `Inactive` status stays. -/
theorem C4_expired_window_resets_counter_not_status_witness :
    (is_account_locked 700 "alice" lockState).1 = false
    ∧ ((is_account_locked 700 "alice" lockState).2).attempts "alice"
      = some { count := 0, last_attempt_time := 0 }
    ∧ ((is_account_locked 700 "alice" lockState).2).users = lockState.users :=
  C4_expired_window_resets_counter_not_status 700 "alice" lockState ⟨5, 0⟩
    rfl (by decide) (by decide)

/-- Witness for C5: a repeat failure at time 50 on an entry stamped 0 bumps
the counter only, and along `demoOps` the surviving entry still carries the
first call's timestamp 5. -/
theorem C5_last_attempt_time_is_first_failure_witness :
    (record_failed_attempt 50 "alice" staleState).attempts "alice"
      = some { count := 4, last_attempt_time := 0 }
    ∧ firstRecordTime demoOps "alice" = some 5 :=
  ⟨C5_last_attempt_time_is_first_failure.1 50 "alice" staleState ⟨3, 0⟩ rfl,
   C5_last_attempt_time_is_first_failure.2 demoOps "alice" emptyState ⟨1, 5⟩ rfl (by decide)⟩

/-- Witness for C10: three further failures at 601, 602, 603 on the stale
entry stamped 0 leave "alice"'s persisted account untouched. -/
theorem C10_stale_entry_blocks_deactivation_witness :
    (applyOps staleOps staleState).users "alice" = staleState.users "alice" :=
  C10_stale_entry_blocks_deactivation staleState "alice" ⟨3, 0⟩ staleOps rfl
    (by
      intro t ht
      simp only [staleOps, List.mem_cons, List.not_mem_nil, or_false] at ht
      rcases ht with h | h | h <;>
        · cases h
          norm_num [LOCKOUT_TIME])

/-! ## `src/auth/db.py`: metadata helpers -/

/-- `db.py::truncateText(inputText, length=200)`.  The Python guard is
`if str and length > 50 and len(inputText) > length`; the bare builtin
`str` is always truthy, so only the two numeric comparisons matter. -/
def truncateText (inputText : PyStr) (length : Nat) : PyStr :=
  if 50 < length ∧ length < inputText.length then inputText.take length ++ [46, 46, 46]
  else inputText

/-- CPython's `Py_UNICODE_ISSPACE` table: the characters stripped by
`str.strip()` and matched by `\s` in an `re` pattern over `str`. -/
def pyIsSpace (c : Nat) : Bool :=
  c = 9 || c = 10 || c = 11 || c = 12 || c = 13 || (28 ≤ c && c ≤ 31) || c = 32 ||
  c = 133 || c = 160 || c = 5760 || (8192 ≤ c && c ≤ 8202) || c = 8232 || c = 8233 ||
  c = 8239 || c = 8287 || c = 12288

/-- `value.strip()`: drop whitespace from both ends. -/
def pyStrip (s : PyStr) : PyStr :=
  ((s.dropWhile pyIsSpace).reverse.dropWhile pyIsSpace).reverse

/-- Worker for `re.sub(r"\s+", " ", s)`: the flag records whether the
character just emitted was the single space standing for the current
whitespace run, so further run members are dropped. -/
def collapseAux : Bool → PyStr → PyStr
  | _, [] => []
  | inRun, c :: r =>
    if pyIsSpace c then
      if inRun then collapseAux true r
      else 32 :: collapseAux true r
    else c :: collapseAux false r

/-- `re.sub(r"\s+", " ", s)`: replace every maximal whitespace run by one
space. -/
def collapseWs (s : PyStr) : PyStr := collapseAux false s

/-- `db.py::sanitize_metadata_value`: strip, collapse whitespace runs,
drop non-ASCII code points (`encode("ascii", "ignore")`), and cap at 1024
characters (`if len > max_length: take max_length`). -/
def sanitize_metadata_value (value : PyStr) : PyStr :=
  if 1024 < ((collapseWs (pyStrip value)).filter (fun c => decide (c < 128))).length
  then ((collapseWs (pyStrip value)).filter (fun c => decide (c < 128))).take 1024
  else (collapseWs (pyStrip value)).filter (fun c => decide (c < 128))

/-- C8: `truncateText("A"*300, 200)` is 200 `"A"`s plus `"..."` (length
203), and `truncateText("short", 200)` is `"short"` unchanged. -/
theorem C8_truncateText_examples :
    truncateText (List.replicate 300 65) 200 = List.replicate 200 65 ++ [46, 46, 46]
    ∧ (truncateText (List.replicate 300 65) 200).length = 203
    ∧ truncateText [115, 104, 111, 114, 116] 200 = [115, 104, 111, 114, 116] := by
  have hc : (50 < 200 ∧ 200 < (List.replicate 300 (65 : Nat)).length) := by
    rw [List.length_replicate]
    exact ⟨by norm_num, by norm_num⟩
  have hmin : (200 : Nat) ⊓ 300 = 200 := by decide
  have h1 : truncateText (List.replicate 300 65) 200
      = List.replicate 200 65 ++ [46, 46, 46] := by
    rw [truncateText, if_pos hc, List.take_replicate, hmin]
  refine ⟨h1, ?_, ?_⟩
  · rw [h1, List.length_append, List.length_replicate]
    rfl
  · rw [truncateText, if_neg]
    decide

/-- C2 counterexample: `sanitize_metadata_value` is not idempotent.  On
`"a 一 b"` the first pass strips the interior non-ASCII character and
leaves two adjacent spaces; only the second pass collapses them. -/
theorem C2_sanitize_not_idempotent_counterexample :
    sanitize_metadata_value (sanitize_metadata_value [97, 32, 19968, 32, 98])
      ≠ sanitize_metadata_value [97, 32, 19968, 32, 98] := by
  decide

/-! ### Shape lemmas for the sanitizer -/

theorem collapseAux_cons_space_true (d : Nat) (r : PyStr) (hd : pyIsSpace d = true) :
    collapseAux true (d :: r) = collapseAux true r := by
  simp [collapseAux, hd]

theorem collapseAux_cons_space_false (d : Nat) (r : PyStr) (hd : pyIsSpace d = true) :
    collapseAux false (d :: r) = 32 :: collapseAux true r := by
  simp [collapseAux, hd]

theorem collapseAux_cons_nonspace (b : Bool) (d : Nat) (r : PyStr)
    (hd : pyIsSpace d = false) :
    collapseAux b (d :: r) = d :: collapseAux false r := by
  cases b <;> simp [collapseAux, hd]

/-- Every emitted character is the collapsing space or a non-whitespace
input character. -/
theorem mem_collapseAux (l : PyStr) :
    ∀ (b : Bool) (c : Nat), c ∈ collapseAux b l →
      c = 32 ∨ (c ∈ l ∧ pyIsSpace c = false) := by
  induction l with
  | nil => intro b c h; simp [collapseAux] at h
  | cons d r ih =>
    intro b c h
    cases hd : pyIsSpace d with
    | true =>
      cases b with
      | true =>
        rw [collapseAux_cons_space_true d r hd] at h
        rcases ih true c h with h' | h'
        · exact Or.inl h'
        · exact Or.inr ⟨List.mem_cons_of_mem _ h'.1, h'.2⟩
      | false =>
        rw [collapseAux_cons_space_false d r hd] at h
        rcases List.mem_cons.mp h with h' | h'
        · exact Or.inl h'
        · rcases ih true c h' with h'' | h''
          · exact Or.inl h''
          · exact Or.inr ⟨List.mem_cons_of_mem _ h''.1, h''.2⟩
    | false =>
      rw [collapseAux_cons_nonspace b d r hd] at h
      rcases List.mem_cons.mp h with h' | h'
      · subst h'; exact Or.inr ⟨List.mem_cons_self _ _, hd⟩
      · rcases ih false c h' with h'' | h''
        · exact Or.inl h''
        · exact Or.inr ⟨List.mem_cons_of_mem _ h''.1, h''.2⟩

theorem length_collapseAux_le (l : PyStr) :
    ∀ b : Bool, (collapseAux b l).length ≤ l.length := by
  induction l with
  | nil => intro b; simp [collapseAux]
  | cons d r ih =>
    intro b
    cases hd : pyIsSpace d with
    | true =>
      cases b with
      | true =>
        rw [collapseAux_cons_space_true d r hd]
        exact Nat.le_succ_of_le (ih true)
      | false =>
        rw [collapseAux_cons_space_false d r hd]
        exact Nat.succ_le_succ (ih true)
    | false =>
      rw [collapseAux_cons_nonspace b d r hd]
      exact Nat.succ_le_succ (ih false)

/-- An empty collapse output means the whole input was whitespace. -/
theorem collapseAux_eq_nil_all_space (l : PyStr) :
    ∀ b : Bool, collapseAux b l = [] → ∀ x ∈ l, pyIsSpace x = true := by
  induction l with
  | nil => intro b _ x hx; cases hx
  | cons d r ih =>
    intro b h x hx
    cases hd : pyIsSpace d with
    | true =>
      cases b with
      | true =>
        rw [collapseAux_cons_space_true d r hd] at h
        rcases List.mem_cons.mp hx with h' | h'
        · subst h'; exact hd
        · exact ih true h x h'
      | false => rw [collapseAux_cons_space_false d r hd] at h; cases h
    | false => rw [collapseAux_cons_nonspace b d r hd] at h; cases h

theorem collapseAux_false_ne_nil (l : PyStr) (h : l ≠ []) :
    collapseAux false l ≠ [] := by
  cases l with
  | nil => exact absurd rfl h
  | cons d r =>
    cases hd : pyIsSpace d with
    | true => rw [collapseAux_cons_space_false d r hd]; exact List.cons_ne_nil _ _
    | false => rw [collapseAux_cons_nonspace false d r hd]; exact List.cons_ne_nil _ _

/-- Inside a run being collapsed, the next emitted character is not
whitespace. -/
theorem head?_collapseAux_true (l : PyStr) :
    ∀ c : Nat, (collapseAux true l).head? = some c → pyIsSpace c = false := by
  induction l with
  | nil => intro c h; cases h
  | cons d r ih =>
    intro c h
    cases hd : pyIsSpace d with
    | true =>
      rw [collapseAux_cons_space_true d r hd] at h
      exact ih c h
    | false =>
      rw [collapseAux_cons_nonspace true d r hd] at h
      cases h
      exact hd

/-- If the input starts with a non-whitespace character, so does the
collapsed result. -/
theorem head?_collapseAux_false (l : PyStr)
    (hin : ∀ c : Nat, l.head? = some c → pyIsSpace c = false) :
    ∀ c : Nat, (collapseAux false l).head? = some c → pyIsSpace c = false := by
  cases l with
  | nil => intro c h; cases h
  | cons d r =>
    intro c h
    have hd := hin d rfl
    rw [collapseAux_cons_nonspace false d r hd] at h
    cases h
    exact hd

/-- No two adjacent whitespace characters. -/
def noTwoSpaces : PyStr → Bool
  | [] => true
  | [_] => true
  | a :: b :: r => (!(pyIsSpace a && pyIsSpace b)) && noTwoSpaces (b :: r)

theorem noTwoSpaces_tail (a : Nat) (l : PyStr) (h : noTwoSpaces (a :: l) = true) :
    noTwoSpaces l = true := by
  cases l with
  | nil => rfl
  | cons b t => exact (Bool.and_eq_true_iff.mp h).2

theorem noTwoSpaces_cons (a : Nat) (l : PyStr) (h : noTwoSpaces l = true)
    (hab : pyIsSpace a = false ∨ ∀ b, l.head? = some b → pyIsSpace b = false) :
    noTwoSpaces (a :: l) = true := by
  cases l with
  | nil => rfl
  | cons b t =>
    have hb : pyIsSpace a = false ∨ pyIsSpace b = false := by
      rcases hab with h' | h'
      · exact Or.inl h'
      · exact Or.inr (h' b rfl)
    show ((!(pyIsSpace a && pyIsSpace b)) && noTwoSpaces (b :: t)) = true
    rcases hb with h' | h' <;> simp [h', h]

/-- Output of the collapser never has two adjacent whitespace characters. -/
theorem noTwoSpaces_collapseAux (l : PyStr) :
    ∀ b : Bool, noTwoSpaces (collapseAux b l) = true := by
  induction l with
  | nil => intro b; rfl
  | cons d r ih =>
    intro b
    cases hd : pyIsSpace d with
    | true =>
      cases b with
      | true => rw [collapseAux_cons_space_true d r hd]; exact ih true
      | false =>
        rw [collapseAux_cons_space_false d r hd]
        exact noTwoSpaces_cons 32 _ (ih true) (Or.inr (head?_collapseAux_true r))
    | false =>
      rw [collapseAux_cons_nonspace b d r hd]
      exact noTwoSpaces_cons d _ (ih false) (Or.inl hd)

theorem collapseAux_true_eq_false (l : PyStr)
    (h : ∀ c : Nat, l.head? = some c → pyIsSpace c = false) :
    collapseAux true l = collapseAux false l := by
  cases l with
  | nil => rfl
  | cons d r =>
    have hd := h d rfl
    rw [collapseAux_cons_nonspace true d r hd, collapseAux_cons_nonspace false d r hd]

/-- On a string with no whitespace runs and `" "` as its only whitespace,
the collapser is the identity. -/
theorem collapseAux_fixpoint (l : PyStr) (h1 : noTwoSpaces l = true)
    (h2 : ∀ c ∈ l, pyIsSpace c = true → c = 32) :
    collapseAux false l = l := by
  induction l with
  | nil => rfl
  | cons d r ih =>
    cases hd : pyIsSpace d with
    | false =>
      rw [collapseAux_cons_nonspace false d r hd]
      rw [ih (noTwoSpaces_tail d r h1) (fun c hc hsp => h2 c (List.mem_cons_of_mem _ hc) hsp)]
    | true =>
      have hd32 : d = 32 := h2 d (List.mem_cons_self _ _) hd
      rw [collapseAux_cons_space_false d r hd]
      have hr : ∀ c : Nat, r.head? = some c → pyIsSpace c = false := by
        cases r with
        | nil => intro c hc; cases hc
        | cons e t =>
          intro c hc
          cases hc
          have := (Bool.and_eq_true_iff.mp h1).1
          cases he : pyIsSpace e with
          | false => rfl
          | true => rw [hd, he] at this; cases this
      rw [collapseAux_true_eq_false r hr,
        ih (noTwoSpaces_tail d r h1) (fun c hc hsp => h2 c (List.mem_cons_of_mem _ hc) hsp),
        hd32]

theorem getLast?_cons_of_ne_nil {α : Type} (a : α) (l : List α) (h : l ≠ []) :
    (a :: l).getLast? = l.getLast? := by
  cases l with
  | nil => exact absurd rfl h
  | cons b t => exact List.getLast?_cons_cons

/-- The collapser preserves "the last character is not whitespace". -/
theorem getLast?_collapseAux (l : PyStr) :
    ∀ b : Bool, (∀ x : Nat, l.getLast? = some x → pyIsSpace x = false) →
    ∀ x : Nat, (collapseAux b l).getLast? = some x → pyIsSpace x = false := by
  induction l with
  | nil => intro b _ x hx; cases hx
  | cons d r ih =>
    intro b hin x hx
    cases r with
    | nil =>
      have hd : pyIsSpace d = false := hin d rfl
      rw [collapseAux_cons_nonspace b d [] hd] at hx
      cases hx
      exact hd
    | cons e t =>
      have hr : ∀ y : Nat, (e :: t).getLast? = some y → pyIsSpace y = false := by
        intro y hy
        exact hin y (by rw [List.getLast?_cons_cons]; exact hy)
      have hne : collapseAux false (e :: t) ≠ [] :=
        collapseAux_false_ne_nil _ (List.cons_ne_nil _ _)
      cases hd : pyIsSpace d with
      | false =>
        rw [collapseAux_cons_nonspace b d (e :: t) hd,
          getLast?_cons_of_ne_nil _ _ hne] at hx
        exact ih false hr x hx
      | true =>
        have htr : ∀ x : Nat, (collapseAux true (e :: t)).getLast? = some x →
            pyIsSpace x = false := ih true hr
        cases b with
        | true =>
          rw [collapseAux_cons_space_true d (e :: t) hd] at hx
          exact htr x hx
        | false =>
          rw [collapseAux_cons_space_false d (e :: t) hd] at hx
          cases hct : collapseAux true (e :: t) with
          | nil =>
            have hall := collapseAux_eq_nil_all_space (e :: t) true hct
            have hmem : ∀ y : Nat, (e :: t).getLast? = some y → y ∈ e :: t := by
              intro y hy
              exact List.mem_of_mem_getLast? hy
            cases hgl : (e :: t).getLast? with
            | none => rw [List.getLast?_eq_none_iff] at hgl; cases hgl
            | some y =>
              have := hall y (hmem y hgl)
              rw [hr y hgl] at this
              cases this
          | cons f t' =>
            rw [getLast?_cons_of_ne_nil _ _ (by rw [hct]; exact List.cons_ne_nil _ _)] at hx
            exact htr x hx

/-! ### Strip lemmas -/

theorem head?_dropWhile {α : Type} (p : α → Bool) (l : List α) :
    ∀ b, (l.dropWhile p).head? = some b → p b = false := by
  induction l with
  | nil => intro b h; cases h
  | cons c r ih =>
    intro b h
    cases hc : p c with
    | true => rw [List.dropWhile_cons, if_pos hc] at h; exact ih b h
    | false => rw [List.dropWhile_cons, if_neg (by simp [hc])] at h; cases h; exact hc

theorem dropWhile_eq_self_of_head {α : Type} (p : α → Bool) (l : List α)
    (h : ∀ b, l.head? = some b → p b = false) : l.dropWhile p = l := by
  cases l with
  | nil => rfl
  | cons c r => rw [List.dropWhile_cons, if_neg (by simp [h c rfl])]

theorem mem_dropWhile {α : Type} (p : α → Bool) (l : List α) :
    ∀ c, c ∈ l.dropWhile p → c ∈ l := by
  induction l with
  | nil => intro c h; cases h
  | cons d r ih =>
    intro c h
    cases hd : p d with
    | true =>
      rw [List.dropWhile_cons, if_pos hd] at h
      exact List.mem_cons_of_mem _ (ih c h)
    | false =>
      rw [List.dropWhile_cons, if_neg (by simp [hd])] at h
      exact h

theorem length_dropWhile_le' {α : Type} (p : α → Bool) (l : List α) :
    (l.dropWhile p).length ≤ l.length := by
  induction l with
  | nil => exact Nat.le_refl _
  | cons d r ih =>
    cases hd : p d with
    | true =>
      rw [List.dropWhile_cons, if_pos hd]
      exact Nat.le_succ_of_le ih
    | false =>
      rw [List.dropWhile_cons, if_neg (by simp [hd])]

theorem getLast?_dropWhile_of_ne_nil {α : Type} (p : α → Bool) (l : List α)
    (h : l.dropWhile p ≠ []) : (l.dropWhile p).getLast? = l.getLast? := by
  conv_rhs => rw [← List.takeWhile_append_dropWhile (p := p) (l := l)]
  rw [List.getLast?_append_of_ne_nil _ h]

theorem mem_pyStrip (l : PyStr) (c : Nat) (h : c ∈ pyStrip l) : c ∈ l := by
  unfold pyStrip at h
  rw [List.mem_reverse] at h
  have h1 := mem_dropWhile pyIsSpace _ c h
  rw [List.mem_reverse] at h1
  exact mem_dropWhile pyIsSpace _ c h1

theorem length_pyStrip_le (l : PyStr) : (pyStrip l).length ≤ l.length := by
  unfold pyStrip
  rw [List.length_reverse]
  calc (((l.dropWhile pyIsSpace).reverse.dropWhile pyIsSpace)).length
      ≤ (l.dropWhile pyIsSpace).reverse.length := length_dropWhile_le' _ _
    _ = (l.dropWhile pyIsSpace).length := List.length_reverse _
    _ ≤ l.length := length_dropWhile_le' _ _

theorem getLast?_pyStrip (l : PyStr) :
    ∀ b, (pyStrip l).getLast? = some b → pyIsSpace b = false := by
  intro b h
  unfold pyStrip at h
  rw [List.getLast?_reverse] at h
  exact head?_dropWhile pyIsSpace _ b h

theorem head?_pyStrip (l : PyStr) :
    ∀ b, (pyStrip l).head? = some b → pyIsSpace b = false := by
  intro b h
  unfold pyStrip at h
  rw [List.head?_reverse] at h
  have hne : (l.dropWhile pyIsSpace).reverse.dropWhile pyIsSpace ≠ [] := by
    intro he
    rw [he] at h
    cases h
  rw [getLast?_dropWhile_of_ne_nil pyIsSpace _ hne, List.getLast?_reverse] at h
  exact head?_dropWhile pyIsSpace _ b h

/-- A string with no leading and no trailing whitespace is fixed by
`strip()`. -/
theorem pyStrip_eq_self (l : PyStr)
    (hh : ∀ b, l.head? = some b → pyIsSpace b = false)
    (hl : ∀ b, l.getLast? = some b → pyIsSpace b = false) :
    pyStrip l = l := by
  unfold pyStrip
  rw [dropWhile_eq_self_of_head pyIsSpace l hh]
  rw [dropWhile_eq_self_of_head pyIsSpace l.reverse
    (by intro b hb; rw [List.head?_reverse] at hb; exact hl b hb)]
  exact List.reverse_reverse l

/-- C2 (amended): `sanitize_metadata_value` always returns pure ASCII of
length at most 1024, and it is idempotent on inputs that are already pure
ASCII of length at most 1024.  (It is not idempotent in general: removing
an interior non-ASCII character can leave two adjacent spaces that only a
second pass collapses — see the counterexample.) -/
theorem C2_sanitize_ascii_bounded_conditionally_idempotent (s : PyStr) :
    (∀ c ∈ sanitize_metadata_value s, c < 128)
    ∧ (sanitize_metadata_value s).length ≤ 1024
    ∧ ((∀ c ∈ s, c < 128) → s.length ≤ 1024 →
        sanitize_metadata_value (sanitize_metadata_value s) = sanitize_metadata_value s) := by
  refine ⟨?_, ?_, ?_⟩
  · intro c hc
    unfold sanitize_metadata_value at hc
    by_cases hlen : 1024 < ((collapseWs (pyStrip s)).filter (fun c => decide (c < 128))).length
    · rw [if_pos hlen] at hc
      have := List.mem_filter.mp (List.mem_of_mem_take hc)
      exact of_decide_eq_true this.2
    · rw [if_neg hlen] at hc
      exact of_decide_eq_true (List.mem_filter.mp hc).2
  · unfold sanitize_metadata_value
    by_cases hlen : 1024 < ((collapseWs (pyStrip s)).filter (fun c => decide (c < 128))).length
    · rw [if_pos hlen, List.length_take]
      exact Nat.min_le_left _ _
    · rw [if_neg hlen]
      omega
  · intro hA hL
    have ht_ascii : ∀ c ∈ collapseWs (pyStrip s), c < 128 := by
      intro c hc
      rcases mem_collapseAux (pyStrip s) false c hc with h' | h'
      · omega
      · exact hA c (mem_pyStrip s c h'.1)
    have hfilter : (collapseWs (pyStrip s)).filter (fun c => decide (c < 128))
        = collapseWs (pyStrip s) :=
      List.filter_eq_self.mpr (fun a ha => decide_eq_true (ht_ascii a ha))
    have htlen : (collapseWs (pyStrip s)).length ≤ 1024 :=
      le_trans (length_collapseAux_le (pyStrip s) false)
        (le_trans (length_pyStrip_le s) hL)
    have hsan : sanitize_metadata_value s = collapseWs (pyStrip s) := by
      unfold sanitize_metadata_value
      rw [hfilter, if_neg (by omega)]
    rw [hsan]
    have hh : ∀ b, (collapseWs (pyStrip s)).head? = some b → pyIsSpace b = false :=
      head?_collapseAux_false (pyStrip s) (head?_pyStrip s)
    have hl : ∀ b, (collapseWs (pyStrip s)).getLast? = some b → pyIsSpace b = false :=
      getLast?_collapseAux (pyStrip s) false (getLast?_pyStrip s)
    have hstrip : pyStrip (collapseWs (pyStrip s)) = collapseWs (pyStrip s) :=
      pyStrip_eq_self _ hh hl
    have hsp32 : ∀ c ∈ collapseWs (pyStrip s), pyIsSpace c = true → c = 32 := by
      intro c hc hsp
      rcases mem_collapseAux (pyStrip s) false c hc with h' | h'
      · exact h'
      · rw [h'.2] at hsp; cases hsp
    have hcoll : collapseWs (collapseWs (pyStrip s)) = collapseWs (pyStrip s) :=
      collapseAux_fixpoint _ (noTwoSpaces_collapseAux (pyStrip s) false) hsp32
    unfold sanitize_metadata_value
    rw [hstrip, hcoll, hfilter, if_neg (by omega)]

/-- Witness for the amended C2 on the ASCII input `" a  b "`. -/
theorem C2_sanitize_witness :
    (∀ c ∈ sanitize_metadata_value [32, 97, 32, 32, 98, 32], c < 128)
    ∧ (sanitize_metadata_value [32, 97, 32, 32, 98, 32]).length ≤ 1024
    ∧ sanitize_metadata_value (sanitize_metadata_value [32, 97, 32, 32, 98, 32])
      = sanitize_metadata_value [32, 97, 32, 32, 98, 32] :=
  ⟨(C2_sanitize_ascii_bounded_conditionally_idempotent [32, 97, 32, 32, 98, 32]).1,
   (C2_sanitize_ascii_bounded_conditionally_idempotent [32, 97, 32, 32, 98, 32]).2.1,
   (C2_sanitize_ascii_bounded_conditionally_idempotent [32, 97, 32, 32, 98, 32]).2.2
     (by decide) (by decide)⟩

/-! ## JSON values and the `json` module, as used by `db.py`

`save_query_histories` stores `json.dumps(query_histories)` as the blob
body; `load_query_histories` returns `json.loads` of the downloaded body.
The JSON value space is modelled without floats (the history records of
this app carry strings); Python string contents are Unicode scalar values.
`json.dumps` uses its defaults: `ensure_ascii=True` and separators
`", "` / `": "`. -/

inductive JVal where
  | null : JVal
  | bool : Bool → JVal
  | int : Int → JVal
  | str : PyStr → JVal
  | arr : List JVal → JVal
  | obj : List (PyStr × JVal) → JVal

/-- Lower-case hex digit, as `"%04x"` uses. -/
def hexDigit (n : Nat) : Nat := if n < 10 then 48 + n else 87 + n

/-- A `\uXXXX` escape. -/
def uEsc (n : Nat) : PyStr :=
  [92, 117, hexDigit (n / 4096 % 16), hexDigit (n / 256 % 16),
   hexDigit (n / 16 % 16), hexDigit (n % 16)]

/-- `ensure_ascii` encoding of one string character: short escapes for
`" \ \b \t \n \f \r`, printable ASCII verbatim, `\uXXXX` otherwise, with a
surrogate pair above the BMP. -/
def encChar (c : Nat) : PyStr :=
  if c = 34 then [92, 34]
  else if c = 92 then [92, 92]
  else if c = 8 then [92, 98]
  else if c = 9 then [92, 116]
  else if c = 10 then [92, 110]
  else if c = 12 then [92, 102]
  else if c = 13 then [92, 114]
  else if 32 ≤ c ∧ c ≤ 126 then [c]
  else if c < 65536 then uEsc c
  else uEsc (55296 + (c - 65536) / 1024) ++ uEsc (56320 + (c - 65536) % 1024)

def encStrBody (s : PyStr) : PyStr := (s.map encChar).flatten

/-- JSON encoding of a string literal. -/
def encStr (s : PyStr) : PyStr := 34 :: encStrBody s ++ [34]

/-- Decimal digits, most significant first; the fuel dominates the digit
count (any fuel at least the number itself is enough). -/
def natDigitsAux : Nat → Nat → PyStr
  | 0, n => [48 + n % 10]
  | fuel + 1, n => if n < 10 then [48 + n] else natDigitsAux fuel (n / 10) ++ [48 + n % 10]

/-- Decimal digits of a natural number, most significant first. -/
def natDigits (n : Nat) : PyStr := natDigitsAux n n

/-- `repr` of a Python int. -/
def intRepr (n : Int) : PyStr :=
  if n < 0 then 45 :: natDigits n.natAbs else natDigits n.natAbs

mutual
/-- `json.dumps` with its default separators. -/
def encVal : JVal → PyStr
  | .null => [110, 117, 108, 108]
  | .bool true => [116, 114, 117, 101]
  | .bool false => [102, 97, 108, 115, 101]
  | .int n => intRepr n
  | .str s => encStr s
  | .arr xs => 91 :: encElems xs ++ [93]
  | .obj kvs => 123 :: encMembers kvs ++ [125]

/-- Array elements, separated by `", "`. -/
def encElems : List JVal → PyStr
  | [] => []
  | [x] => encVal x
  | x :: y :: xs => encVal x ++ [44, 32] ++ encElems (y :: xs)

/-- Object members, `"key": value` separated by `", "`. -/
def encMembers : List (PyStr × JVal) → PyStr
  | [] => []
  | [(k, v)] => encStr k ++ [58, 32] ++ encVal v
  | (k, v) :: m :: kvs => encStr k ++ [58, 32] ++ encVal v ++ [44, 32] ++ encMembers (m :: kvs)
end

def dumps (v : JVal) : PyStr := encVal v

/-- A Unicode scalar value: a code point that is not a surrogate. -/
def validScalar (c : Nat) : Bool :=
  decide (c < 1114112) && !(decide (55296 ≤ c) && decide (c < 57344))

def distinctKeys : List PyStr → Bool
  | [] => true
  | k :: ks => !(ks.contains k) && distinctKeys ks

mutual
/-- Well-formed JSON value: strings hold Unicode scalar values and objects
(Python dicts) have distinct keys. -/
def JWf : JVal → Bool
  | .null => true
  | .bool _ => true
  | .int _ => true
  | .str s => s.all validScalar
  | .arr xs => JWfElems xs
  | .obj kvs => distinctKeys (kvs.map Prod.fst) && JWfMembers kvs

def JWfElems : List JVal → Bool
  | [] => true
  | x :: xs => JWf x && JWfElems xs

def JWfMembers : List (PyStr × JVal) → Bool
  | [] => true
  | (k, v) :: kvs => k.all validScalar && JWf v && JWfMembers kvs
end

/-! ### The parser (`json.loads`) -/

def jsonWsChar (c : Nat) : Bool := c = 32 || c = 9 || c = 10 || c = 13

def skipWs (s : PyStr) : PyStr := s.dropWhile jsonWsChar

def hexDigitVal (c : Nat) : Option Nat :=
  if 48 ≤ c ∧ c ≤ 57 then some (c - 48)
  else if 97 ≤ c ∧ c ≤ 102 then some (c - 87)
  else if 65 ≤ c ∧ c ≤ 70 then some (c - 55)
  else none

def hex4 : PyStr → Option (Nat × PyStr)
  | a :: b :: c :: d :: r =>
    match hexDigitVal a, hexDigitVal b, hexDigitVal c, hexDigitVal d with
    | some x, some y, some z, some w => some (4096 * x + 256 * y + 16 * z + w, r)
    | _, _, _, _ => none
  | _ => none

/-- The short backslash escapes accepted by the scanner. -/
def escChar (e : Nat) : Option Nat :=
  if e = 34 then some 34 else if e = 92 then some 92 else if e = 47 then some 47
  else if e = 98 then some 8 else if e = 102 then some 12 else if e = 110 then some 10
  else if e = 114 then some 13 else if e = 116 then some 9 else none

/-- After a `\uXXXX` high surrogate, look for a following `\uXXXX` low
surrogate and combine the pair into one code point; otherwise keep the
lone surrogate, as in CPython's `py_scanstring`. -/
def parseLowSurrogate (n : Nat) (r3 : PyStr) : Option (Nat × PyStr) :=
  match r3 with
  | 92 :: 117 :: r4 =>
    match hex4 r4 with
    | some (m, r5) =>
      if 56320 ≤ m ∧ m < 57344 then
        some (65536 + 1024 * (n - 55296) + (m - 56320), r5)
      else some (n, r3)
    | none => some (n, r3)
  | _ => some (n, r3)

/-- Scan one escape sequence (input starts after the backslash). -/
def parseEscape : PyStr → Option (Nat × PyStr)
  | [] => none
  | e :: r2 =>
    if e = 117 then
      match hex4 r2 with
      | none => none
      | some (n, r3) =>
        if 55296 ≤ n ∧ n < 56320 then parseLowSurrogate n r3
        else some (n, r3)
    else
      match escChar e with
      | some d => some (d, r2)
      | none => none

/-- Scan a string body (input starts after the opening quote); raw control
characters are rejected (strict mode). -/
def parseStr : Nat → PyStr → Option (PyStr × PyStr)
  | 0, _ => none
  | fuel + 1, s =>
    match s with
    | [] => none
    | c :: r =>
      if c = 34 then some ([], r)
      else if c = 92 then
        match parseEscape r with
        | some (d, r2) => (parseStr fuel r2).map (fun p => (d :: p.1, p.2))
        | none => none
      else if c < 32 then none
      else (parseStr fuel r).map (fun p => (c :: p.1, p.2))

def isDigit (c : Nat) : Bool := 48 ≤ c && c ≤ 57

def takeDigits : PyStr → PyStr × PyStr
  | [] => ([], [])
  | c :: r =>
    if isDigit c then
      match takeDigits r with
      | (ds, rest) => (c :: ds, rest)
    else ([], c :: r)

def digitsToNat (ds : PyStr) : Nat := ds.foldl (fun acc c => 10 * acc + (c - 48)) 0

/-- Would the number continue as a float (`.` or exponent)? -/
def isFloatNext : PyStr → Bool
  | [] => false
  | c :: _ => c = 46 || c = 101 || c = 69

/-- Scan an unsigned integer literal: `0|[1-9][0-9]*`, not followed by a
fraction or exponent (floats are outside the model). -/
def parseNum (s : PyStr) : Option (Nat × PyStr) :=
  match takeDigits s with
  | ([], _) => none
  | (ds, rest) =>
    if isFloatNext rest then none
    else if 1 < ds.length ∧ ds.head? = some 48 then none
    else some (digitsToNat ds, rest)

/-- The tails of the literal words `null`, `true`, `false`. -/
def parseNullTail : PyStr → Option (JVal × PyStr)
  | 117 :: 108 :: 108 :: r2 => some (JVal.null, r2)
  | _ => none

def parseTrueTail : PyStr → Option (JVal × PyStr)
  | 114 :: 117 :: 101 :: r2 => some (JVal.bool true, r2)
  | _ => none

def parseFalseTail : PyStr → Option (JVal × PyStr)
  | 97 :: 108 :: 115 :: 101 :: r2 => some (JVal.bool false, r2)
  | _ => none

/-- The recursive scanner.  `mode = 0` scans one value, `mode = 1` the
element list of a non-empty array (after the `[`), `mode = 2` the member
list of a non-empty object (after the `{`); list results are wrapped as
`arr` / `obj`.  The fuel only has to dominate the nesting structure. -/
def parseJ : Nat → Nat → PyStr → Option (JVal × PyStr)
  | 0, _, _ => none
  | fuel + 1, 0, s =>
    match skipWs s with
    | [] => none
    | c :: r =>
      if c = 110 then parseNullTail r
      else if c = 116 then parseTrueTail r
      else if c = 102 then parseFalseTail r
      else if c = 34 then (parseStr fuel r).map (fun p => (.str p.1, p.2))
      else if c = 91 then
        if (skipWs r).head? = some 93 then some (.arr [], (skipWs r).tail)
        else parseJ fuel 1 (skipWs r)
      else if c = 123 then
        if (skipWs r).head? = some 125 then some (.obj [], (skipWs r).tail)
        else parseJ fuel 2 (skipWs r)
      else if c = 45 then (parseNum r).map (fun p => (.int (-(p.1 : Int)), p.2))
      else if isDigit c then (parseNum (c :: r)).map (fun p => (.int ((p.1 : Nat) : Int), p.2))
      else none
  | fuel + 1, 1, s =>
    match parseJ fuel 0 s with
    | none => none
    | some (v, r) =>
      if (skipWs r).head? = some 44 then
        match parseJ fuel 1 (skipWs r).tail with
        | some (JVal.arr vs, r3) => some (.arr (v :: vs), r3)
        | _ => none
      else if (skipWs r).head? = some 93 then some (.arr [v], (skipWs r).tail)
      else none
  | fuel + 1, 2, s =>
    match skipWs s with
    | [] => none
    | c :: r =>
      if c = 34 then
        match parseStr fuel r with
        | none => none
        | some (k, r2) =>
          if (skipWs r2).head? = some 58 then
            match parseJ fuel 0 (skipWs r2).tail with
            | none => none
            | some (v, r4) =>
              if (skipWs r4).head? = some 44 then
                match parseJ fuel 2 (skipWs r4).tail with
                | some (JVal.obj kvs, r6) => some (.obj ((k, v) :: kvs), r6)
                | _ => none
              else if (skipWs r4).head? = some 125 then
                some (.obj [(k, v)], (skipWs r4).tail)
              else none
          else none
      else none
  | _ + 1, _ + 3, _ => none

/-- `json.loads`: scan one value, allow surrounding whitespace only, reject
trailing input.  The fuel `length + 1` dominates any nesting the input can
express. -/
def loads (s : PyStr) : Option JVal :=
  match parseJ (s.length + 1) 0 s with
  | some (v, rest) => if skipWs rest = [] then some v else none
  | none => none

example : loads (dumps (.arr [.obj [([97], .str [104, 36])]]))
    = some (.arr [.obj [([97], .str [104, 36])]]) := by rfl

example : loads [34] = none := by rfl

example : loads (dumps (.arr [.int 10, .int (-3), .null, .bool true]))
    = some (.arr [.int 10, .int (-3), .null, .bool true]) := by rfl

/-! ### Digit lemmas -/

theorem natDigitsAux_ne_nil (fuel n : Nat) : natDigitsAux fuel n ≠ [] := by
  cases fuel with
  | zero => exact List.cons_ne_nil _ _
  | succ f =>
    unfold natDigitsAux
    by_cases h : n < 10
    · rw [if_pos h]; exact List.cons_ne_nil _ _
    · rw [if_neg h]; exact List.append_ne_nil_of_right_ne_nil _ (List.cons_ne_nil _ _)

theorem natDigitsAux_digits (fuel : Nat) : ∀ n, ∀ c ∈ natDigitsAux fuel n,
    48 ≤ c ∧ c ≤ 57 := by
  induction fuel with
  | zero =>
    intro n c hc
    rw [show natDigitsAux 0 n = [48 + n % 10] from rfl] at hc
    rcases List.mem_singleton.mp hc with rfl
    have := Nat.mod_lt n (show 0 < 10 by norm_num)
    omega
  | succ f ih =>
    intro n c hc
    unfold natDigitsAux at hc
    by_cases h : n < 10
    · rw [if_pos h] at hc
      rcases List.mem_singleton.mp hc with rfl
      omega
    · rw [if_neg h] at hc
      rcases List.mem_append.mp hc with hc' | hc'
      · exact ih (n / 10) c hc'
      · rcases List.mem_singleton.mp hc' with rfl
        have := Nat.mod_lt n (show 0 < 10 by norm_num)
        omega

theorem digitsToNat_append_one (ds : PyStr) (d : Nat) :
    digitsToNat (ds ++ [d]) = 10 * digitsToNat ds + (d - 48) := by
  unfold digitsToNat
  rw [List.foldl_append]
  rfl

theorem digitsToNat_natDigitsAux (fuel : Nat) : ∀ n, n ≤ fuel →
    digitsToNat (natDigitsAux fuel n) = n := by
  induction fuel with
  | zero =>
    intro n hn
    have : n = 0 := Nat.le_zero.mp hn
    subst this
    rfl
  | succ f ih =>
    intro n hn
    unfold natDigitsAux
    by_cases h : n < 10
    · rw [if_pos h]
      show digitsToNat [48 + n] = n
      unfold digitsToNat
      simp
    · rw [if_neg h, digitsToNat_append_one, ih (n / 10) (by omega)]
      omega

theorem natDigitsAux_small (fuel n : Nat) (h : n < 10) :
    natDigitsAux fuel n = [48 + n] := by
  cases fuel with
  | zero => rw [show natDigitsAux 0 n = [48 + n % 10] from rfl, Nat.mod_eq_of_lt h]
  | succ f => unfold natDigitsAux; rw [if_pos h]

theorem head?_append_of_ne_nil' {α : Type} (l₁ l₂ : List α) (h : l₁ ≠ []) :
    (l₁ ++ l₂).head? = l₁.head? := by
  cases l₁ with
  | nil => exact absurd rfl h
  | cons a t => rfl

theorem natDigitsAux_head_ne_zero (fuel : Nat) : ∀ n, 1 ≤ n → n ≤ fuel →
    (natDigitsAux fuel n).head? ≠ some 48 := by
  induction fuel with
  | zero => intro n h1 h2; omega
  | succ f ih =>
    intro n h1 h2
    unfold natDigitsAux
    by_cases h : n < 10
    · rw [if_pos h]
      intro he
      have := Option.some.inj he
      omega
    · rw [if_neg h,
        head?_append_of_ne_nil' _ _ (natDigitsAux_ne_nil f (n / 10))]
      exact ih (n / 10) (by omega) (by omega)

theorem digitsToNat_natDigits (n : Nat) : digitsToNat (natDigits n) = n :=
  digitsToNat_natDigitsAux n n (Nat.le_refl n)

theorem natDigits_digits (n : Nat) : ∀ c ∈ natDigits n, 48 ≤ c ∧ c ≤ 57 :=
  natDigitsAux_digits n n

theorem natDigits_ne_nil (n : Nat) : natDigits n ≠ [] := natDigitsAux_ne_nil n n

/-- The scanner's leading-zero rejection never fires on `repr` output. -/
theorem natDigits_no_leading_zero (n : Nat) :
    ¬(1 < (natDigits n).length ∧ (natDigits n).head? = some 48) := by
  rintro ⟨hlen, hhead⟩
  by_cases h : n < 10
  · rw [show natDigits n = natDigitsAux n n from rfl, natDigitsAux_small n n h] at hlen
    simp at hlen
  · exact natDigitsAux_head_ne_zero n n (by omega) (Nat.le_refl n) hhead

theorem takeDigits_append (ds : PyStr) :
    ∀ rest, (∀ c ∈ ds, isDigit c = true) →
    (∀ c, rest.head? = some c → isDigit c = false) →
    takeDigits (ds ++ rest) = (ds, rest) := by
  induction ds with
  | nil =>
    intro rest _ hrest
    cases rest with
    | nil => rfl
    | cons c t =>
      show takeDigits (c :: t) = ([], c :: t)
      unfold takeDigits
      rw [if_neg (by simp [hrest c rfl])]
  | cons d t ih =>
    intro rest hds hrest
    show takeDigits (d :: (t ++ rest)) = (d :: t, rest)
    unfold takeDigits
    rw [if_pos (hds d (List.mem_cons_self _ _)), ih rest
      (fun c hc => hds c (List.mem_cons_of_mem _ hc)) hrest]

/-- Characters that may legally follow a scanned integer: not a digit, not
a fraction dot, not an exponent. -/
def numBoundary : PyStr → Bool
  | [] => true
  | c :: _ => !(isDigit c || c = 46 || c = 101 || c = 69)

theorem parseNum_natDigits (n : Nat) (rest : PyStr) (h : numBoundary rest = true) :
    parseNum (natDigits n ++ rest) = some (n, rest) := by
  have hb : (∀ c, rest.head? = some c → isDigit c = false) ∧ isFloatNext rest = false := by
    cases rest with
    | nil =>
      refine ⟨fun c hc => ?_, rfl⟩
      cases hc
    | cons c t =>
      have h' : (isDigit c || c = 46 || c = 101 || c = 69) = false := by
        have h'' := h
        unfold numBoundary at h''
        rw [Bool.not_eq_true'] at h''
        exact h''
      simp only [Bool.or_eq_false_iff, decide_eq_false_iff_not] at h'
      obtain ⟨⟨⟨hdg, h46⟩, h101⟩, h69⟩ := h'
      refine ⟨fun c' hc' => by cases hc'; exact hdg, ?_⟩
      show (decide (c = 46) || decide (c = 101) || decide (c = 69)) = false
      simp [h46, h101, h69]
  have h1 : takeDigits (natDigits n ++ rest) = (natDigits n, rest) :=
    takeDigits_append (natDigits n) rest
      (fun c hc => by
        have := natDigits_digits n c hc
        simp [isDigit]
        omega) hb.1
  unfold parseNum
  rw [h1]
  obtain ⟨d, ds, hd⟩ := List.exists_cons_of_ne_nil (natDigits_ne_nil n)
  rw [hd]
  rw [← hd]
  rw [show (match (natDigits n, rest) with
      | ([], _) => none
      | (ds, rest) =>
        if isFloatNext rest then none
        else if 1 < ds.length ∧ ds.head? = some 48 then none
        else some (digitsToNat ds, rest) : Option (Nat × PyStr))
      = if isFloatNext rest then none
        else if 1 < (natDigits n).length ∧ (natDigits n).head? = some 48 then none
        else some (digitsToNat (natDigits n), rest) from by rw [hd]]
  rw [if_neg (by simp [hb.2]), if_neg (natDigits_no_leading_zero n), digitsToNat_natDigits]

/-! ### Hex and escape lemmas -/

theorem hexDigitVal_hexDigit : ∀ n < 16, hexDigitVal (hexDigit n) = some n := by
  decide

theorem hex4_uEsc_tail (n : Nat) (h : n < 65536) (rest : PyStr) :
    hex4 ([hexDigit (n / 4096 % 16), hexDigit (n / 256 % 16),
      hexDigit (n / 16 % 16), hexDigit (n % 16)] ++ rest) = some (n, rest) := by
  show (match hexDigitVal (hexDigit (n / 4096 % 16)), hexDigitVal (hexDigit (n / 256 % 16)),
      hexDigitVal (hexDigit (n / 16 % 16)), hexDigitVal (hexDigit (n % 16)) with
    | some x, some y, some z, some w => some (4096 * x + 256 * y + 16 * z + w, rest)
    | _, _, _, _ => none) = some (n, rest)
  rw [hexDigitVal_hexDigit _ (Nat.mod_lt _ (by norm_num)),
    hexDigitVal_hexDigit _ (Nat.mod_lt _ (by norm_num)),
    hexDigitVal_hexDigit _ (Nat.mod_lt _ (by norm_num)),
    hexDigitVal_hexDigit _ (Nat.mod_lt _ (by norm_num))]
  show some (4096 * (n / 4096 % 16) + 256 * (n / 256 % 16) + 16 * (n / 16 % 16) + n % 16, rest)
    = some (n, rest)
  have he : 4096 * (n / 4096 % 16) + 256 * (n / 256 % 16) + 16 * (n / 16 % 16) + n % 16 = n := by
    omega
  rw [he]

/-- `uEsc` prefixed input scans back to the escaped code point (non-surrogate,
BMP case). -/
theorem parseEscape_uEsc (n : Nat) (hlt : n < 65536)
    (hns : ¬(55296 ≤ n ∧ n < 57344)) (rest : PyStr) :
    parseEscape ((uEsc n).tail ++ rest) = some (n, rest) := by
  show (match hex4 ([hexDigit (n / 4096 % 16), hexDigit (n / 256 % 16),
        hexDigit (n / 16 % 16), hexDigit (n % 16)] ++ rest) with
    | none => none
    | some (n', r3) =>
      if 55296 ≤ n' ∧ n' < 56320 then parseLowSurrogate n' r3
      else some (n', r3)) = some (n, rest)
  rw [hex4_uEsc_tail n hlt rest]
  show (if 55296 ≤ n ∧ n < 56320 then parseLowSurrogate n rest else some (n, rest))
    = some (n, rest)
  rw [if_neg (by omega)]

/-- A low-surrogate `\uXXXX` escape right after a high surrogate combines. -/
theorem parseLowSurrogate_uEsc (n m : Nat) (hm : m < 65536)
    (hr : 56320 ≤ m ∧ m < 57344) (rest : PyStr) :
    parseLowSurrogate n (uEsc m ++ rest)
      = some (65536 + 1024 * (n - 55296) + (m - 56320), rest) := by
  show (match hex4 ([hexDigit (m / 4096 % 16), hexDigit (m / 256 % 16),
        hexDigit (m / 16 % 16), hexDigit (m % 16)] ++ rest) with
    | some (m', r5) =>
      if 56320 ≤ m' ∧ m' < 57344 then
        some (65536 + 1024 * (n - 55296) + (m' - 56320), r5)
      else some (n, uEsc m ++ rest)
    | none => some (n, uEsc m ++ rest))
    = some (65536 + 1024 * (n - 55296) + (m - 56320), rest)
  rw [hex4_uEsc_tail _ hm _]
  show (if 56320 ≤ m ∧ m < 57344 then
      some (65536 + 1024 * (n - 55296) + (m - 56320), rest)
    else some (n, uEsc m ++ rest))
    = some (65536 + 1024 * (n - 55296) + (m - 56320), rest)
  rw [if_pos hr]

/-- Generic scan step for a `\u` escape. -/
theorem parseEscape_cons_u (r2 : PyStr) :
    parseEscape (117 :: r2) = match hex4 r2 with
      | none => none
      | some (n, r3) =>
        if 55296 ≤ n ∧ n < 56320 then parseLowSurrogate n r3 else some (n, r3) := rfl

/-- `uEsc` surrogate-pair input scans back to the supplementary code point. -/
theorem parseEscape_surrogatePair (c : Nat) (h1 : 65536 ≤ c) (h2 : c < 1114112)
    (rest : PyStr) :
    parseEscape ((uEsc (55296 + (c - 65536) / 1024)).tail
      ++ (uEsc (56320 + (c - 65536) % 1024) ++ rest)) = some (c, rest) := by
  have hdiv : (c - 65536) / 1024 < 1024 := by omega
  have hmod : (c - 65536) % 1024 < 1024 := Nat.mod_lt _ (by norm_num)
  have hhi : 55296 + (c - 65536) / 1024 < 65536 := by omega
  have hlo : 56320 + (c - 65536) % 1024 < 65536 := by omega
  rw [show (uEsc (55296 + (c - 65536) / 1024)).tail
      ++ (uEsc (56320 + (c - 65536) % 1024) ++ rest)
      = 117 :: ([hexDigit ((55296 + (c - 65536) / 1024) / 4096 % 16),
        hexDigit ((55296 + (c - 65536) / 1024) / 256 % 16),
        hexDigit ((55296 + (c - 65536) / 1024) / 16 % 16),
        hexDigit ((55296 + (c - 65536) / 1024) % 16)]
      ++ (uEsc (56320 + (c - 65536) % 1024) ++ rest)) from rfl]
  rw [parseEscape_cons_u, hex4_uEsc_tail _ hhi _]
  show (if 55296 ≤ 55296 + (c - 65536) / 1024 ∧ 55296 + (c - 65536) / 1024 < 56320 then
      parseLowSurrogate (55296 + (c - 65536) / 1024) (uEsc (56320 + (c - 65536) % 1024) ++ rest)
    else some (55296 + (c - 65536) / 1024, uEsc (56320 + (c - 65536) % 1024) ++ rest))
    = some (c, rest)
  rw [if_pos (by omega), parseLowSurrogate_uEsc _ _ hlo (by omega) rest]
  have he : 65536 + 1024 * (55296 + (c - 65536) / 1024 - 55296)
      + (56320 + (c - 65536) % 1024 - 56320) = c := by omega
  rw [he]

/-- Each encoded character is either a verbatim printable character or a
backslash escape that scans back to exactly that character. -/
theorem encChar_cases (c : Nat) (hv : validScalar c = true) :
    (encChar c = [c] ∧ c ≠ 34 ∧ c ≠ 92 ∧ ¬(c < 32))
    ∨ (∃ tc, encChar c = 92 :: tc ∧ ∀ rest, parseEscape (tc ++ rest) = some (c, rest)) := by
  have hv' : c < 1114112 ∧ ¬(55296 ≤ c ∧ c < 57344) := by
    have h' : (decide (c < 1114112) && !(decide (55296 ≤ c) && decide (c < 57344))) = true := hv
    simp only [Bool.and_eq_true, Bool.not_eq_true', Bool.and_eq_false_iff,
      decide_eq_true_eq, decide_eq_false_iff_not] at h'
    rcases h' with ⟨h1, h2 | h2⟩
    · exact ⟨h1, fun hc => h2 hc.1⟩
    · exact ⟨h1, fun hc => h2 hc.2⟩
  by_cases h34 : c = 34
  · subst h34
    exact Or.inr ⟨[34], rfl, fun rest => rfl⟩
  by_cases h92 : c = 92
  · subst h92
    exact Or.inr ⟨[92], rfl, fun rest => rfl⟩
  by_cases h8 : c = 8
  · subst h8
    exact Or.inr ⟨[98], rfl, fun rest => rfl⟩
  by_cases h9 : c = 9
  · subst h9
    exact Or.inr ⟨[116], rfl, fun rest => rfl⟩
  by_cases h10 : c = 10
  · subst h10
    exact Or.inr ⟨[110], rfl, fun rest => rfl⟩
  by_cases h12 : c = 12
  · subst h12
    exact Or.inr ⟨[102], rfl, fun rest => rfl⟩
  by_cases h13 : c = 13
  · subst h13
    exact Or.inr ⟨[114], rfl, fun rest => rfl⟩
  by_cases hpr : 32 ≤ c ∧ c ≤ 126
  · refine Or.inl ⟨?_, h34, h92, by omega⟩
    unfold encChar
    rw [if_neg h34, if_neg h92, if_neg h8, if_neg h9, if_neg h10, if_neg h12,
      if_neg h13, if_pos hpr]
  by_cases hbmp : c < 65536
  · refine Or.inr ⟨(uEsc c).tail, ?_, fun rest => parseEscape_uEsc c hbmp hv'.2 rest⟩
    unfold encChar
    rw [if_neg h34, if_neg h92, if_neg h8, if_neg h9, if_neg h10, if_neg h12,
      if_neg h13, if_neg hpr, if_pos hbmp]
    rfl
  · refine Or.inr ⟨(uEsc (55296 + (c - 65536) / 1024)).tail
      ++ uEsc (56320 + (c - 65536) % 1024), ?_, fun rest => ?_⟩
    · unfold encChar
      rw [if_neg h34, if_neg h92, if_neg h8, if_neg h9, if_neg h10, if_neg h12,
        if_neg h13, if_neg hpr, if_neg hbmp]
      rfl
    · rw [List.append_assoc]
      exact parseEscape_surrogatePair c (by omega) hv'.1 rest

/-- Generic scan step of the string scanner. -/
theorem parseStr_cons (fuel : Nat) (c : Nat) (r : PyStr) :
    parseStr (fuel + 1) (c :: r)
      = if c = 34 then some ([], r)
        else if c = 92 then
          match parseEscape r with
          | some (d, r2) => (parseStr fuel r2).map (fun p => (d :: p.1, p.2))
          | none => none
        else if c < 32 then none
        else (parseStr fuel r).map (fun p => (c :: p.1, p.2)) := rfl

/-- Round trip of the string scanner over the `ensure_ascii` encoder. -/
theorem parseStr_enc (s₀ : PyStr) :
    ∀ fuel rest, (∀ c ∈ s₀, validScalar c = true) → s₀.length + 1 ≤ fuel →
    parseStr fuel (encStrBody s₀ ++ 34 :: rest) = some (s₀, rest) := by
  induction s₀ with
  | nil =>
    intro fuel rest _ hf
    cases fuel with
    | zero => omega
    | succ f =>
      show parseStr (f + 1) (34 :: rest) = some ([], rest)
      rw [parseStr_cons, if_pos rfl]
  | cons c t ih =>
    intro fuel rest hv hf
    cases fuel with
    | zero => simp at hf
    | succ f =>
      have hvc := hv c (List.mem_cons_self _ _)
      have hvt : ∀ x ∈ t, validScalar x = true :=
        fun x hx => hv x (List.mem_cons_of_mem _ hx)
      have hft : t.length + 1 ≤ f := by
        have : (c :: t).length = t.length + 1 := rfl
        omega
      have hbody : encStrBody (c :: t) = encChar c ++ encStrBody t := rfl
      rw [hbody]
      rcases encChar_cases c hvc with ⟨he, h34, h92, h32⟩ | ⟨tc, he, hpe⟩
      · rw [he, List.append_assoc, List.singleton_append, parseStr_cons,
          if_neg h34, if_neg h92, if_neg h32, ih f rest hvt hft]
        rfl
      · rw [he, List.append_assoc, List.cons_append, parseStr_cons,
          if_neg (by norm_num), if_pos rfl, hpe (encStrBody t ++ 34 :: rest)]
        show (parseStr f (encStrBody t ++ 34 :: rest)).map (fun p => (c :: p.1, p.2))
          = some (c :: t, rest)
        rw [ih f rest hvt hft]
        rfl

/-! ### Fuel accounting and scanner-step equations -/

mutual
/-- Fuel sufficient for the scanner on the encoding of a value. -/
def needV : JVal → Nat
  | .null => 1
  | .bool _ => 1
  | .int _ => 1
  | .str s => 2 + s.length
  | .arr xs => 1 + needElems xs
  | .obj kvs => 1 + needMembers kvs

def needElems : List JVal → Nat
  | [] => 0
  | x :: xs => 1 + needV x + needElems xs

def needMembers : List (PyStr × JVal) → Nat
  | [] => 0
  | (k, v) :: kvs => 2 + k.length + needV v + needMembers kvs
end

theorem needV_pos (v : JVal) : 1 ≤ needV v := by
  cases v <;> (unfold needV; omega)

theorem needElems_pos (xs : List JVal) (h : xs ≠ []) : 1 ≤ needElems xs := by
  cases xs with
  | nil => exact absurd rfl h
  | cons x t => unfold needElems; omega

theorem needMembers_pos (kvs : List (PyStr × JVal)) (h : kvs ≠ []) : 1 ≤ needMembers kvs := by
  cases kvs with
  | nil => exact absurd rfl h
  | cons kv t =>
    obtain ⟨k, v⟩ := kv
    unfold needMembers
    omega

/-- One scanner step in value mode, with the whitespace-skipped input
exposed. -/
theorem parseJ_zero_eq (f : Nat) (s : PyStr) (c : Nat) (r : PyStr)
    (h : skipWs s = c :: r) :
    parseJ (f + 1) 0 s
      = (if c = 110 then parseNullTail r
        else if c = 116 then parseTrueTail r
        else if c = 102 then parseFalseTail r
        else if c = 34 then (parseStr f r).map (fun (p : PyStr × PyStr) => (JVal.str p.1, p.2))
        else if c = 91 then
          if (skipWs r).head? = some 93 then some (JVal.arr [], (skipWs r).tail)
          else parseJ f 1 (skipWs r)
        else if c = 123 then
          if (skipWs r).head? = some 125 then some (JVal.obj [], (skipWs r).tail)
          else parseJ f 2 (skipWs r)
        else if c = 45 then (parseNum r).map (fun (p : Nat × PyStr) => (JVal.int (-(p.1 : Int)), p.2))
        else if isDigit c then
          (parseNum (c :: r)).map (fun (p : Nat × PyStr) => (JVal.int ((p.1 : Nat) : Int), p.2))
        else none) := by
  show (match skipWs s with
    | [] => none
    | c :: r =>
      if c = 110 then parseNullTail r
      else if c = 116 then parseTrueTail r
      else if c = 102 then parseFalseTail r
      else if c = 34 then (parseStr f r).map (fun (p : PyStr × PyStr) => (JVal.str p.1, p.2))
      else if c = 91 then
        if (skipWs r).head? = some 93 then some (JVal.arr [], (skipWs r).tail)
        else parseJ f 1 (skipWs r)
      else if c = 123 then
        if (skipWs r).head? = some 125 then some (JVal.obj [], (skipWs r).tail)
        else parseJ f 2 (skipWs r)
      else if c = 45 then (parseNum r).map (fun (p : Nat × PyStr) => (JVal.int (-(p.1 : Int)), p.2))
      else if isDigit c then
        (parseNum (c :: r)).map (fun (p : Nat × PyStr) => (JVal.int ((p.1 : Nat) : Int), p.2))
      else none) = _
  conv_lhs => rw [h]

/-- One scanner step in element-list mode. -/
theorem parseJ_one_eq (f : Nat) (s : PyStr) :
    parseJ (f + 1) 1 s
      = match parseJ f 0 s with
        | none => none
        | some (v, r) =>
          if (skipWs r).head? = some 44 then
            match parseJ f 1 (skipWs r).tail with
            | some (JVal.arr vs, r3) => some (JVal.arr (v :: vs), r3)
            | _ => none
          else if (skipWs r).head? = some 93 then some (JVal.arr [v], (skipWs r).tail)
          else none := rfl

/-- One scanner step in member-list mode, with the whitespace-skipped input
exposed. -/
theorem parseJ_two_eq (f : Nat) (s : PyStr) (c : Nat) (r : PyStr)
    (h : skipWs s = c :: r) :
    parseJ (f + 1) 2 s
      = (if c = 34 then
          match parseStr f r with
          | none => none
          | some (k, r2) =>
            if (skipWs r2).head? = some 58 then
              match parseJ f 0 (skipWs r2).tail with
              | none => none
              | some (v, r4) =>
                if (skipWs r4).head? = some 44 then
                  match parseJ f 2 (skipWs r4).tail with
                  | some (JVal.obj kvs, r6) => some (JVal.obj ((k, v) :: kvs), r6)
                  | _ => none
                else if (skipWs r4).head? = some 125 then
                  some (JVal.obj [(k, v)], (skipWs r4).tail)
                else none
            else none
        else none) := by
  show (match skipWs s with
    | [] => none
    | c :: r =>
      if c = 34 then
        match parseStr f r with
        | none => none
        | some (k, r2) =>
          if (skipWs r2).head? = some 58 then
            match parseJ f 0 (skipWs r2).tail with
            | none => none
            | some (v, r4) =>
              if (skipWs r4).head? = some 44 then
                match parseJ f 2 (skipWs r4).tail with
                | some (JVal.obj kvs, r6) => some (JVal.obj ((k, v) :: kvs), r6)
                | _ => none
              else if (skipWs r4).head? = some 125 then
                some (JVal.obj [(k, v)], (skipWs r4).tail)
              else none
          else none
      else none) = _
  conv_lhs => rw [h]

/-! ### Whitespace and head-shape helpers -/

theorem skipWs_cons_not_ws (c : Nat) (r : PyStr) (h : jsonWsChar c = false) :
    skipWs (c :: r) = c :: r := by
  show List.dropWhile jsonWsChar (c :: r) = c :: r
  rw [List.dropWhile_cons, if_neg (by simp [h])]

theorem skipWs_cons_32 (r : PyStr) : skipWs (32 :: r) = skipWs r := by
  show List.dropWhile jsonWsChar (32 :: r) = List.dropWhile jsonWsChar r
  rw [List.dropWhile_cons, if_pos (by decide)]

/-- The first character of an encoded value: never whitespace, never a
structural delimiter. -/
theorem encVal_head_ok (v : JVal) :
    ∃ c cs, encVal v = c :: cs ∧ jsonWsChar c = false
      ∧ c ≠ 93 ∧ c ≠ 125 ∧ c ≠ 44 ∧ c ≠ 58 := by
  cases v with
  | null => exact ⟨110, _, rfl, by decide, by decide, by decide, by decide, by decide⟩
  | bool b =>
    cases b with
    | true => exact ⟨116, _, rfl, by decide, by decide, by decide, by decide, by decide⟩
    | false => exact ⟨102, _, rfl, by decide, by decide, by decide, by decide, by decide⟩
  | int n =>
    by_cases hn : n < 0
    · refine ⟨45, natDigits n.natAbs, ?_, by decide, by decide, by decide, by decide, by decide⟩
      show intRepr n = _
      rw [intRepr, if_pos hn]
    · obtain ⟨d, ds, hd⟩ := List.exists_cons_of_ne_nil (natDigits_ne_nil n.natAbs)
      have hdig := natDigits_digits n.natAbs d (by rw [hd]; exact List.mem_cons_self _ _)
      refine ⟨d, ds, ?_, ?_, by omega, by omega, by omega, by omega⟩
      · show intRepr n = _
        rw [intRepr, if_neg hn, hd]
      · show (decide (d = 32) || decide (d = 9) || decide (d = 10) || decide (d = 13)) = false
        have h1 : (d = 32) = False := by simp; omega
        have h2 : (d = 9) = False := by simp; omega
        have h3 : (d = 10) = False := by simp; omega
        have h4 : (d = 13) = False := by simp; omega
        simp [h1, h2, h3, h4]
  | str s => exact ⟨34, _, rfl, by decide, by decide, by decide, by decide, by decide⟩
  | arr xs => exact ⟨91, _, rfl, by decide, by decide, by decide, by decide, by decide⟩
  | obj kvs => exact ⟨123, _, rfl, by decide, by decide, by decide, by decide, by decide⟩

/-- Whitespace skipping does nothing in front of an encoded value. -/
theorem skipWs_encVal (v : JVal) (X : PyStr) :
    skipWs (encVal v ++ X) = encVal v ++ X := by
  obtain ⟨c, cs, he, hws, _, _, _, _⟩ := encVal_head_ok v
  rw [he, List.cons_append, skipWs_cons_not_ws c _ hws]

/-! ### Staging lemmas for the scanner proof -/

theorem parseJ_one_some (f : Nat) (s : PyStr) (v : JVal) (r : PyStr)
    (h : parseJ f 0 s = some (v, r)) :
    parseJ (f + 1) 1 s
      = if (skipWs r).head? = some 44 then
          match parseJ f 1 (skipWs r).tail with
          | some (JVal.arr vs, r3) => some (JVal.arr (v :: vs), r3)
          | _ => none
        else if (skipWs r).head? = some 93 then some (JVal.arr [v], (skipWs r).tail)
        else none := by
  rw [parseJ_one_eq f s, h]

theorem match_arr_tail (f : Nat) (v : JVal) (X : PyStr) (vs : List JVal) (r3 : PyStr)
    (h : parseJ f 1 X = some (JVal.arr vs, r3)) :
    (match parseJ f 1 X with
     | some (JVal.arr vs', r3') => some (JVal.arr (v :: vs'), r3')
     | _ => none) = some (JVal.arr (v :: vs), r3) := by
  rw [h]

theorem parseJ_two_key (f : Nat) (s : PyStr) (r : PyStr) (k : PyStr) (r2 : PyStr)
    (hs : skipWs s = 34 :: r) (hk : parseStr f r = some (k, r2)) :
    parseJ (f + 1) 2 s
      = if (skipWs r2).head? = some 58 then
          match parseJ f 0 (skipWs r2).tail with
          | none => none
          | some (v, r4) =>
            if (skipWs r4).head? = some 44 then
              match parseJ f 2 (skipWs r4).tail with
              | some (JVal.obj kvs, r6) => some (JVal.obj ((k, v) :: kvs), r6)
              | _ => none
            else if (skipWs r4).head? = some 125 then
              some (JVal.obj [(k, v)], (skipWs r4).tail)
            else none
        else none := by
  rw [parseJ_two_eq f s 34 r hs, if_pos rfl, hk]

theorem match_obj_val (f : Nat) (k : PyStr) (X : PyStr) (v : JVal) (r4 : PyStr)
    (h : parseJ f 0 X = some (v, r4)) :
    (match parseJ f 0 X with
     | none => none
     | some (v', r4') =>
       if (skipWs r4').head? = some 44 then
         match parseJ f 2 (skipWs r4').tail with
         | some (JVal.obj kvs, r6) => some (JVal.obj ((k, v') :: kvs), r6)
         | _ => none
       else if (skipWs r4').head? = some 125 then
         some (JVal.obj [(k, v')], (skipWs r4').tail)
       else none)
      = (if (skipWs r4).head? = some 44 then
          match parseJ f 2 (skipWs r4).tail with
          | some (JVal.obj kvs, r6) => some (JVal.obj ((k, v) :: kvs), r6)
          | _ => none
        else if (skipWs r4).head? = some 125 then
          some (JVal.obj [(k, v)], (skipWs r4).tail)
        else none) := by
  rw [h]

theorem match_obj_tail (f : Nat) (k : PyStr) (v : JVal) (X : PyStr)
    (kvs : List (PyStr × JVal)) (r6 : PyStr)
    (h : parseJ f 2 X = some (JVal.obj kvs, r6)) :
    (match parseJ f 2 X with
     | some (JVal.obj kvs', r6') => some (JVal.obj ((k, v) :: kvs'), r6')
     | _ => none) = some (JVal.obj ((k, v) :: kvs), r6) := by
  rw [h]

/-- Where a non-empty element list's encoding starts: at its first value. -/
theorem encElems_cons_shape (x : JVal) (t : List JVal) (X : PyStr) :
    ∃ Y, encElems (x :: t) ++ X = encVal x ++ Y := by
  cases t with
  | nil => exact ⟨X, rfl⟩
  | cons y t' =>
    refine ⟨44 :: 32 :: (encElems (y :: t') ++ X), ?_⟩
    rw [show encElems (x :: y :: t') = encVal x ++ [44, 32] ++ encElems (y :: t') from rfl]
    simp [List.append_assoc]

theorem skipWs_encElems_cons (x : JVal) (t : List JVal) (X : PyStr) :
    skipWs (encElems (x :: t) ++ X) = encElems (x :: t) ++ X := by
  obtain ⟨Y, hY⟩ := encElems_cons_shape x t X
  calc skipWs (encElems (x :: t) ++ X) = skipWs (encVal x ++ Y) := by rw [hY]
    _ = encVal x ++ Y := skipWs_encVal x Y
    _ = encElems (x :: t) ++ X := hY.symm

theorem head?_encElems_cons (x : JVal) (t : List JVal) (X : PyStr) :
    ∃ c, (encElems (x :: t) ++ X).head? = some c ∧ jsonWsChar c = false
      ∧ c ≠ 93 ∧ c ≠ 125 ∧ c ≠ 44 ∧ c ≠ 58 := by
  obtain ⟨Y, hY⟩ := encElems_cons_shape x t X
  obtain ⟨c₀, cs₀, hx, hws, h93, h125, h44, h58⟩ := encVal_head_ok x
  refine ⟨c₀, ?_, hws, h93, h125, h44, h58⟩
  rw [hY, hx]
  rfl

theorem encMembers_cons_shape (k : PyStr) (v : JVal) (t : List (PyStr × JVal)) (X : PyStr) :
    ∃ W, encMembers ((k, v) :: t) ++ X = 34 :: W := by
  cases t with
  | nil => exact ⟨_, rfl⟩
  | cons m t' => exact ⟨_, rfl⟩

theorem skipWs_encMembers_cons (k : PyStr) (v : JVal) (t : List (PyStr × JVal)) (X : PyStr) :
    skipWs (encMembers ((k, v) :: t) ++ X) = encMembers ((k, v) :: t) ++ X := by
  obtain ⟨W, hW⟩ := encMembers_cons_shape k v t X
  calc skipWs (encMembers ((k, v) :: t) ++ X) = skipWs (34 :: W) := by rw [hW]
    _ = 34 :: W := skipWs_cons_not_ws 34 W (by decide)
    _ = encMembers ((k, v) :: t) ++ X := hW.symm

/-- Round trip of the scanner over the encoder, in all three modes.  The
trailing-input hypothesis `numBoundary` records that parsing stops exactly
at the encoded value (needed because an adjacent digit would extend an
integer literal). -/
theorem parseJ_enc (fuel : Nat) :
    (∀ (v : JVal) (s rest : PyStr), JWf v = true → needV v ≤ fuel →
      numBoundary rest = true → skipWs s = encVal v ++ rest →
      parseJ fuel 0 s = some (v, rest))
    ∧ (∀ (xs : List JVal) (s rest : PyStr), xs ≠ [] → JWfElems xs = true →
      needElems xs ≤ fuel → skipWs s = encElems xs ++ 93 :: rest →
      parseJ fuel 1 s = some (JVal.arr xs, rest))
    ∧ (∀ (kvs : List (PyStr × JVal)) (s rest : PyStr), kvs ≠ [] → JWfMembers kvs = true →
      needMembers kvs ≤ fuel → skipWs s = encMembers kvs ++ 125 :: rest →
      parseJ fuel 2 s = some (JVal.obj kvs, rest)) := by
  induction fuel with
  | zero =>
    refine ⟨?_, ?_, ?_⟩
    · intro v _ _ _ hneed _ _
      have := needV_pos v
      omega
    · intro xs _ _ hne _ hneed _
      have := needElems_pos xs hne
      omega
    · intro kvs _ _ hne _ hneed _
      have := needMembers_pos kvs hne
      omega
  | succ f ih =>
    obtain ⟨ih0, ih1, ih2⟩ := ih
    refine ⟨?_, ?_, ?_⟩
    · -- value mode
      intro v s rest hwf hneed hnb hs
      cases v with
      | null =>
        have hs' : skipWs s = 110 :: (117 :: 108 :: 108 :: rest) := hs
        rw [parseJ_zero_eq f s 110 _ hs', if_pos rfl]
        rfl
      | bool b =>
        cases b with
        | true =>
          have hs' : skipWs s = 116 :: (114 :: 117 :: 101 :: rest) := hs
          rw [parseJ_zero_eq f s 116 _ hs', if_neg (by decide), if_pos rfl]
          rfl
        | false =>
          have hs' : skipWs s = 102 :: (97 :: 108 :: 115 :: 101 :: rest) := hs
          rw [parseJ_zero_eq f s 102 _ hs', if_neg (by decide), if_neg (by decide),
            if_pos rfl]
          rfl
      | int n =>
        by_cases hn : n < 0
        · have hs' : skipWs s = 45 :: (natDigits n.natAbs ++ rest) := by
            rw [hs, show encVal (JVal.int n) = intRepr n from rfl, intRepr, if_pos hn]
            rfl
          rw [parseJ_zero_eq f s 45 _ hs', if_neg (by decide), if_neg (by decide),
            if_neg (by decide), if_neg (by decide), if_neg (by decide), if_neg (by decide),
            if_pos rfl, parseNum_natDigits _ _ hnb]
          show some (JVal.int (-((n.natAbs : Nat) : Int)), rest) = some (JVal.int n, rest)
          have hna : -((n.natAbs : Nat) : Int) = n := by omega
          rw [hna]
        · obtain ⟨d, ds, hd⟩ := List.exists_cons_of_ne_nil (natDigits_ne_nil n.natAbs)
          have hdig := natDigits_digits n.natAbs d (by rw [hd]; exact List.mem_cons_self _ _)
          have hs' : skipWs s = d :: (ds ++ rest) := by
            rw [hs, show encVal (JVal.int n) = intRepr n from rfl, intRepr, if_neg hn, hd]
            rfl
          rw [parseJ_zero_eq f s d _ hs', if_neg (by omega), if_neg (by omega),
            if_neg (by omega), if_neg (by omega), if_neg (by omega), if_neg (by omega),
            if_neg (by omega), if_pos (show isDigit d = true by simp [isDigit]; omega)]
          have hrw : d :: (ds ++ rest) = natDigits n.natAbs ++ rest := by
            rw [hd]
            rfl
          rw [hrw, parseNum_natDigits _ _ hnb]
          show some (JVal.int ((n.natAbs : Nat) : Int), rest) = some (JVal.int n, rest)
          have hna : ((n.natAbs : Nat) : Int) = n := by omega
          rw [hna]
      | str s₀ =>
        have hs' : skipWs s = 34 :: (encStrBody s₀ ++ 34 :: rest) := by
          rw [hs, show encVal (JVal.str s₀) = 34 :: (encStrBody s₀ ++ [34]) from rfl,
            List.cons_append, List.append_assoc]
          rfl
        have hval : ∀ c ∈ s₀, validScalar c = true := by
          have h' : s₀.all validScalar = true := hwf
          exact fun c hc => List.all_eq_true.mp h' c hc
        have hfl : s₀.length + 1 ≤ f := by
          have h' : needV (JVal.str s₀) = 2 + s₀.length := rfl
          omega
        rw [parseJ_zero_eq f s 34 _ hs', if_neg (by decide), if_neg (by decide),
          if_neg (by decide), if_pos rfl, parseStr_enc s₀ f rest hval hfl]
        rfl
      | arr xs =>
        have hs' : skipWs s = 91 :: (encElems xs ++ 93 :: rest) := by
          rw [hs, show encVal (JVal.arr xs) = 91 :: (encElems xs ++ [93]) from rfl,
            List.cons_append, List.append_assoc]
          rfl
        rw [parseJ_zero_eq f s 91 _ hs', if_neg (by decide), if_neg (by decide),
          if_neg (by decide), if_neg (by decide), if_pos rfl]
        cases xs with
        | nil =>
          rw [show encElems ([] : List JVal) ++ 93 :: rest = 93 :: rest from rfl,
            skipWs_cons_not_ws 93 rest (by decide),
            if_pos (show (93 :: rest).head? = some 93 from rfl)]
          rfl
        | cons x t =>
          obtain ⟨c₀, hhead, hws₀, h93, _, _, _⟩ := head?_encElems_cons x t (93 :: rest)
          have hsk := skipWs_encElems_cons x t (93 :: rest)
          rw [hsk, hhead, if_neg (by simp [h93])]
          exact ih1 (x :: t) _ rest (List.cons_ne_nil x t) hwf
            (by have h' : needV (JVal.arr (x :: t)) = 1 + needElems (x :: t) := rfl; omega)
            hsk
      | obj kvs =>
        have hs' : skipWs s = 123 :: (encMembers kvs ++ 125 :: rest) := by
          rw [hs, show encVal (JVal.obj kvs) = 123 :: (encMembers kvs ++ [125]) from rfl,
            List.cons_append, List.append_assoc]
          rfl
        rw [parseJ_zero_eq f s 123 _ hs', if_neg (by decide), if_neg (by decide),
          if_neg (by decide), if_neg (by decide), if_neg (by decide), if_pos rfl]
        cases kvs with
        | nil =>
          rw [show encMembers ([] : List (PyStr × JVal)) ++ 125 :: rest = 125 :: rest from rfl,
            skipWs_cons_not_ws 125 rest (by decide),
            if_pos (show (125 :: rest).head? = some 125 from rfl)]
          rfl
        | cons kv t =>
          obtain ⟨k, v⟩ := kv
          obtain ⟨W, hW⟩ := encMembers_cons_shape k v t (125 :: rest)
          have hsk := skipWs_encMembers_cons k v t (125 :: rest)
          have hhead : (encMembers ((k, v) :: t) ++ 125 :: rest).head? = some 34 := by
            rw [hW]
            rfl
          rw [hsk, hhead, if_neg (by decide)]
          have hwf' : JWfMembers ((k, v) :: t) = true := by
            have h' : (distinctKeys (((k, v) :: t).map Prod.fst)
                && JWfMembers ((k, v) :: t)) = true := hwf
            exact (Bool.and_eq_true_iff.mp h').2
          exact ih2 ((k, v) :: t) _ rest (List.cons_ne_nil _ _) hwf'
            (by have h' : needV (JVal.obj ((k, v) :: t)) = 1 + needMembers ((k, v) :: t) := rfl
                omega)
            hsk
    · -- element-list mode
      intro xs s rest hne hwf hneed hs
      cases xs with
      | nil => exact absurd rfl hne
      | cons x t =>
        have hwf' : JWf x = true ∧ JWfElems t = true := by
          have h' : (JWf x && JWfElems t) = true := hwf
          exact Bool.and_eq_true_iff.mp h'
        have hneed' : needV x ≤ f ∧ needElems t ≤ f := by
          have h' : needElems (x :: t) = 1 + needV x + needElems t := rfl
          omega
        cases t with
        | nil =>
          have hs0 : skipWs s = encVal x ++ (93 :: rest) := hs
          rw [parseJ_one_some f s x (93 :: rest)
            (ih0 x s (93 :: rest) hwf'.1 hneed'.1 (by rfl) hs0)]
          rw [skipWs_cons_not_ws 93 rest (by decide), if_neg (by simp),
            if_pos (show (93 :: rest).head? = some 93 from rfl)]
          rfl
        | cons y t' =>
          have hs0 : skipWs s = encVal x ++ (44 :: 32 :: (encElems (y :: t') ++ 93 :: rest)) := by
            rw [hs,
              show encElems (x :: y :: t') = encVal x ++ [44, 32] ++ encElems (y :: t') from rfl]
            simp [List.append_assoc]
          rw [parseJ_one_some f s x _
            (ih0 x s _ hwf'.1 hneed'.1 (by rfl) hs0)]
          rw [skipWs_cons_not_ws 44 _ (by decide),
            if_pos (show (44 :: 32 :: (encElems (y :: t') ++ 93 :: rest)).head?
              = some 44 from rfl),
            show (44 :: 32 :: (encElems (y :: t') ++ 93 :: rest)).tail
              = 32 :: (encElems (y :: t') ++ 93 :: rest) from rfl]
          have hskip : skipWs (32 :: (encElems (y :: t') ++ 93 :: rest))
              = encElems (y :: t') ++ 93 :: rest := by
            rw [skipWs_cons_32, skipWs_encElems_cons]
          exact match_arr_tail f x _ (y :: t') rest
            (ih1 (y :: t') _ rest (List.cons_ne_nil _ _) hwf'.2 hneed'.2 hskip)
    · -- member-list mode
      intro kvs s rest hne hwf hneed hs
      cases kvs with
      | nil => exact absurd rfl hne
      | cons kv t =>
        obtain ⟨k, v⟩ := kv
        have hwf' : k.all validScalar = true ∧ JWf v = true ∧ JWfMembers t = true := by
          have h' : ((k.all validScalar && JWf v) && JWfMembers t) = true := hwf
          obtain ⟨h1, h2⟩ := Bool.and_eq_true_iff.mp h'
          obtain ⟨h3, h4⟩ := Bool.and_eq_true_iff.mp h1
          exact ⟨h3, h4, h2⟩
        have hneed' : k.length + 1 ≤ f ∧ needV v ≤ f ∧ needMembers t ≤ f := by
          have h' : needMembers ((k, v) :: t) = 2 + k.length + needV v + needMembers t := rfl
          omega
        have hvalk : ∀ c ∈ k, validScalar c = true :=
          fun c hc => List.all_eq_true.mp hwf'.1 c hc
        cases t with
        | nil =>
          have hs' : skipWs s
              = 34 :: (encStrBody k ++ 34 :: (58 :: 32 :: (encVal v ++ 125 :: rest))) := by
            rw [hs, show encMembers [(k, v)] = encStr k ++ [58, 32] ++ encVal v from rfl,
              show encStr k = 34 :: (encStrBody k ++ [34]) from rfl]
            simp [List.append_assoc]
          rw [parseJ_two_key f s _ k _ hs'
            (parseStr_enc k f (58 :: 32 :: (encVal v ++ 125 :: rest)) hvalk hneed'.1)]
          rw [skipWs_cons_not_ws 58 _ (by decide),
            if_pos (show (58 :: 32 :: (encVal v ++ 125 :: rest)).head? = some 58 from rfl),
            show (58 :: 32 :: (encVal v ++ 125 :: rest)).tail
              = 32 :: (encVal v ++ 125 :: rest) from rfl]
          have hval0 : parseJ f 0 (32 :: (encVal v ++ 125 :: rest)) = some (v, 125 :: rest) :=
            ih0 v _ (125 :: rest) hwf'.2.1 hneed'.2.1 (by rfl)
              (by rw [skipWs_cons_32, skipWs_encVal])
          rw [match_obj_val f k _ v (125 :: rest) hval0]
          rw [skipWs_cons_not_ws 125 rest (by decide), if_neg (by simp),
            if_pos (show (125 :: rest).head? = some 125 from rfl)]
          rfl
        | cons m t' =>
          have hs' : skipWs s
              = 34 :: (encStrBody k ++ 34 :: (58 :: 32 :: (encVal v
                ++ 44 :: 32 :: (encMembers (m :: t') ++ 125 :: rest)))) := by
            rw [hs, show encMembers ((k, v) :: m :: t')
                = encStr k ++ [58, 32] ++ encVal v ++ [44, 32] ++ encMembers (m :: t') from rfl,
              show encStr k = 34 :: (encStrBody k ++ [34]) from rfl]
            simp [List.append_assoc]
          rw [parseJ_two_key f s _ k _ hs'
            (parseStr_enc k f _ hvalk hneed'.1)]
          rw [skipWs_cons_not_ws 58 _ (by decide),
            if_pos (show (58 :: 32 :: (encVal v
              ++ 44 :: 32 :: (encMembers (m :: t') ++ 125 :: rest))).head? = some 58 from rfl),
            show (58 :: 32 :: (encVal v ++ 44 :: 32 :: (encMembers (m :: t') ++ 125 :: rest))).tail
              = 32 :: (encVal v ++ 44 :: 32 :: (encMembers (m :: t') ++ 125 :: rest)) from rfl]
          have hval0 : parseJ f 0 (32 :: (encVal v ++ 44 :: 32 :: (encMembers (m :: t') ++ 125 :: rest)))
              = some (v, 44 :: 32 :: (encMembers (m :: t') ++ 125 :: rest)) :=
            ih0 v _ _ hwf'.2.1 hneed'.2.1 (by rfl)
              (by rw [skipWs_cons_32, skipWs_encVal])
          rw [match_obj_val f k _ v _ hval0]
          rw [skipWs_cons_not_ws 44 _ (by decide),
            if_pos (show (44 :: 32 :: (encMembers (m :: t') ++ 125 :: rest)).head?
              = some 44 from rfl),
            show (44 :: 32 :: (encMembers (m :: t') ++ 125 :: rest)).tail
              = 32 :: (encMembers (m :: t') ++ 125 :: rest) from rfl]
          have hskip : skipWs (32 :: (encMembers (m :: t') ++ 125 :: rest))
              = encMembers (m :: t') ++ 125 :: rest := by
            obtain ⟨km, vm⟩ := m
            rw [skipWs_cons_32, skipWs_encMembers_cons]
          exact match_obj_tail f k v _ (m :: t') rest
            (ih2 (m :: t') _ rest (List.cons_ne_nil _ _) hwf'.2.2 hneed'.2.2 hskip)

theorem encChar_length_pos (c : Nat) : 1 ≤ (encChar c).length := by
  unfold encChar
  repeat' split
  all_goals simp [uEsc]

theorem length_le_encStrBody (s : PyStr) : s.length ≤ (encStrBody s).length := by
  induction s with
  | nil => exact Nat.le_refl _
  | cons c t ih =>
    have h1 : encStrBody (c :: t) = encChar c ++ encStrBody t := rfl
    rw [h1, List.length_append]
    have := encChar_length_pos c
    show t.length + 1 ≤ _
    omega

/-- The scanner's fuel need is dominated by the encoding's length. -/
theorem need_le_length (n : Nat) :
    (∀ v, needV v ≤ n → needV v ≤ (encVal v).length)
    ∧ (∀ xs, needElems xs ≤ n → needElems xs ≤ (encElems xs).length + 1)
    ∧ (∀ kvs, needMembers kvs ≤ n → needMembers kvs ≤ (encMembers kvs).length + 1) := by
  induction n with
  | zero =>
    refine ⟨?_, ?_, ?_⟩
    · intro v h
      have := needV_pos v
      omega
    · intro xs h
      cases xs with
      | nil => simp [needElems]
      | cons x t => have := needElems_pos (x :: t) (List.cons_ne_nil _ _); omega
    · intro kvs h
      cases kvs with
      | nil => simp [needMembers]
      | cons kv t => have := needMembers_pos (kv :: t) (List.cons_ne_nil _ _); omega
  | succ n ih =>
    obtain ⟨ihv, ihe, ihm⟩ := ih
    refine ⟨?_, ?_, ?_⟩
    · intro v h
      cases v with
      | null => simp [needV, encVal]
      | bool b => cases b <;> simp [needV, encVal]
      | int m =>
        have h1 : needV (JVal.int m) = 1 := rfl
        have h2 : encVal (JVal.int m) = intRepr m := rfl
        rw [h1, h2]
        unfold intRepr
        split
        · simp
        · have := natDigits_ne_nil m.natAbs
          cases hh : natDigits m.natAbs with
          | nil => exact absurd hh this
          | cons d ds => simp [hh]
      | str s₀ =>
        have h1 : needV (JVal.str s₀) = 2 + s₀.length := rfl
        have h2 : encVal (JVal.str s₀) = 34 :: (encStrBody s₀ ++ [34]) := rfl
        rw [h1, h2]
        have := length_le_encStrBody s₀
        simp only [List.length_cons, List.length_append, List.length_singleton]
        omega
      | arr xs =>
        have h1 : needV (JVal.arr xs) = 1 + needElems xs := rfl
        have h2 : encVal (JVal.arr xs) = 91 :: (encElems xs ++ [93]) := rfl
        rw [h1] at h
        rw [h1, h2]
        have he := ihe xs (by omega)
        simp only [List.length_cons, List.length_append, List.length_singleton]
        omega
      | obj kvs =>
        have h1 : needV (JVal.obj kvs) = 1 + needMembers kvs := rfl
        have h2 : encVal (JVal.obj kvs) = 123 :: (encMembers kvs ++ [125]) := rfl
        rw [h1] at h
        rw [h1, h2]
        have he := ihm kvs (by omega)
        simp only [List.length_cons, List.length_append, List.length_singleton]
        omega
    · intro xs h
      cases xs with
      | nil => simp [needElems]
      | cons x t =>
        have h1 : needElems (x :: t) = 1 + needV x + needElems t := rfl
        rw [h1] at h
        rw [h1]
        have hx := ihv x (by omega)
        cases t with
        | nil =>
          have h2 : encElems [x] = encVal x := rfl
          have h3 : needElems ([] : List JVal) = 0 := rfl
          rw [h2, h3]
          omega
        | cons y t' =>
          have h2 : encElems (x :: y :: t') = encVal x ++ [44, 32] ++ encElems (y :: t') := rfl
          have hn : needElems (y :: t') ≤ n := by omega
          have ht := ihe (y :: t') hn
          rw [h2]
          simp only [List.length_append]
          have : [44, 32].length = 2 := rfl
          omega
    · intro kvs h
      cases kvs with
      | nil => simp [needMembers]
      | cons kv t =>
        obtain ⟨k, v⟩ := kv
        have h1 : needMembers ((k, v) :: t) = 2 + k.length + needV v + needMembers t := rfl
        rw [h1] at h
        rw [h1]
        have hv := ihv v (by omega)
        have hk := length_le_encStrBody k
        have hkl : (encStr k).length = 2 + (encStrBody k).length := by
          show (34 :: (encStrBody k ++ [34])).length = _
          simp only [List.length_cons, List.length_append, List.length_nil]
          omega
        cases t with
        | nil =>
          have h2 : encMembers [(k, v)] = encStr k ++ [58, 32] ++ encVal v := rfl
          have h3 : needMembers ([] : List (PyStr × JVal)) = 0 := rfl
          rw [h2, h3]
          simp only [List.length_append]
          have e1 : [58, 32].length = 2 := rfl
          omega
        | cons m t' =>
          have h2 : encMembers ((k, v) :: m :: t')
              = encStr k ++ [58, 32] ++ encVal v ++ [44, 32] ++ encMembers (m :: t') := rfl
          have hn : needMembers (m :: t') ≤ n := by omega
          have ht := ihm (m :: t') hn
          rw [h2]
          simp only [List.length_append]
          have e1 : [58, 32].length = 2 := rfl
          have e2 : [44, 32].length = 2 := rfl
          omega

/-- `json.loads` inverts `json.dumps` on well-formed values. -/
theorem loads_dumps (v : JVal) (h : JWf v = true) : loads (dumps v) = some v := by
  have hneed : needV v ≤ (encVal v).length + 1 := by
    have := (need_le_length (needV v)).1 v (Nat.le_refl _)
    omega
  have hskip : skipWs (encVal v) = encVal v ++ [] := by
    rw [List.append_nil]
    have h2 := skipWs_encVal v []
    rwa [List.append_nil] at h2
  have hparse : parseJ ((encVal v).length + 1) 0 (encVal v) = some (v, []) :=
    (parseJ_enc ((encVal v).length + 1)).1 v (encVal v) [] h hneed (by rfl) hskip
  show (match parseJ ((encVal v).length + 1) 0 (encVal v) with
    | some (v', rest) => if skipWs rest = [] then some v' else none
    | none => none) = some v
  rw [hparse]
  rfl

/-! ### Query-history persistence (`save_query_histories` / `load_query_histories`)

The Azure blob store is modelled as a map from blob names to blob data
(the uploaded body plus its metadata).  `save_query_histories` uploads
`json.dumps(query_histories)` with the sanitized metadata fields;
`load_query_histories` downloads and `json.loads` the body, returning the
empty list on any failure (missing blob or parse error). -/

structure BlobData where
  body : PyStr
  metadata : List (String × PyStr)

def updBlob (store : String → Option BlobData) (name : String) (b : BlobData) :
    String → Option BlobData :=
  fun k => if k = name then some b else store k

def save_query_histories (store : String → Option BlobData) (blob_name : String)
    (query_histories : List JVal)
    (lastquerytime lastquerycontent lastqueryindexes lastqueryType
      lastanswercontent : PyStr) : String → Option BlobData :=
  updBlob store blob_name
    { body := dumps (JVal.arr query_histories)
      metadata :=
        [("lastquerytime", lastquerytime),
         ("lastquerycontent", sanitize_metadata_value (truncateText lastquerycontent 200)),
         ("lastqueryindexes", lastqueryindexes),
         ("lastqueryType", lastqueryType),
         ("lastanswercontent", sanitize_metadata_value (truncateText lastanswercontent 200))] }

def load_query_histories (store : String → Option BlobData) (blob_name : String) : JVal :=
  match store blob_name with
  | none => JVal.arr []
  | some b =>
    match loads b.body with
    | some v => v
    | none => JVal.arr []

/-- C3: saving a list of well-formed records and loading it back under the
same blob name returns an equal list; in particular the `$` character in a
record such as `[{"content": "hello $5"}]` is untouched by persistence. -/
theorem C3_save_load_round_trip
    (store : String → Option BlobData) (blob_name : String)
    (query_histories : List JVal) (m1 m2 m3 m4 m5 : PyStr)
    (h : JWfElems query_histories = true) :
    load_query_histories
      (save_query_histories store blob_name query_histories m1 m2 m3 m4 m5)
      blob_name = JVal.arr query_histories := by
  have hwf : JWf (JVal.arr query_histories) = true := h
  have hld := loads_dumps (JVal.arr query_histories) hwf
  have hstore : save_query_histories store blob_name query_histories m1 m2 m3 m4 m5
      blob_name = some
      { body := dumps (JVal.arr query_histories)
        metadata :=
          [("lastquerytime", m1),
           ("lastquerycontent", sanitize_metadata_value (truncateText m2 200)),
           ("lastqueryindexes", m3),
           ("lastqueryType", m4),
           ("lastanswercontent", sanitize_metadata_value (truncateText m5 200))] } := by
    show (if blob_name = blob_name then some _ else store blob_name) = _
    rw [if_pos rfl]
  unfold load_query_histories
  rw [hstore]
  show (match loads (dumps (JVal.arr query_histories)) with
        | some v => v
        | none => JVal.arr []) = JVal.arr query_histories
  rw [hld]

def exHistories : List JVal :=
  [JVal.obj [([99, 111, 110, 116, 101, 110, 116],
              JVal.str [104, 101, 108, 108, 111, 32, 36, 53])]]

/-- Concrete round trip for the record `[{"content": "hello $5"}]`
(code point 36 is `$`). -/
theorem C3_save_load_round_trip_witness :
    JWfElems exHistories = true
    ∧ load_query_histories
        (save_query_histories (fun _ => none) "user1" exHistories [] [] [] [] [])
        "user1" = JVal.arr exHistories :=
  ⟨by rfl,
   C3_save_load_round_trip (fun _ => none) "user1" exHistories [] [] [] [] [] (by rfl)⟩

/-- C7: `load_query_histories` returns the empty list whenever the blob is
missing (download raises) or its body fails to parse as JSON, instead of
propagating the error. -/
theorem C7_load_failure_returns_empty
    (store : String → Option BlobData) (blob_name : String)
    (h : store blob_name = none
      ∨ ∃ b, store blob_name = some b ∧ loads b.body = none) :
    load_query_histories store blob_name = JVal.arr [] := by
  unfold load_query_histories
  rcases h with h | ⟨b, hb, hp⟩
  · rw [h]
  · rw [hb]
    show (match loads b.body with
          | some v => v
          | none => JVal.arr []) = JVal.arr []
    rw [hp]

def badBlobStore : String → Option BlobData :=
  fun _ => some { body := [34], metadata := [] }

/-- A blob whose body is a lone `"` fails to parse, and loading yields `[]`. -/
theorem C7_load_failure_returns_empty_witness :
    (badBlobStore "user1" = none
      ∨ ∃ b, badBlobStore "user1" = some b ∧ loads b.body = none)
    ∧ load_query_histories badBlobStore "user1" = JVal.arr [] :=
  ⟨Or.inr ⟨{ body := [34], metadata := [] }, rfl, rfl⟩,
   C7_load_failure_returns_empty badBlobStore "user1"
     (Or.inr ⟨{ body := [34], metadata := [] }, rfl, rfl⟩)⟩

/-! ### Markdown formatter (`display_markdown_text`)

`ast.literal_eval` is Python standard library, not repository code, so it
is abstracted as a parameter `litEval : PyStr → Option PyLit` returning a
Python literal on success and `none` when it raises `ValueError` or
`SyntaxError`.  `display_markdown_text`'s own control flow — the
list-of-dicts check and the fallback to escaped plain markdown — is
translated from the source. -/

inductive PyLit where
  | none : PyLit
  | bool : Bool → PyLit
  | int : Int → PyLit
  | str : PyStr → PyLit
  | list : List PyLit → PyLit
  | dict : List (PyLit × PyLit) → PyLit

def isDict : PyLit → Bool
  | PyLit.dict _ => true
  | _ => false

def isListOfDicts : PyLit → Bool
  | PyLit.list items => items.all isDict
  | _ => false

def escape_special_chars (text : PyStr) : PyStr :=
  (text.map (fun c => if c = 36 then [92, 36] else [c])).flatten

inductive Rendered where
  | recordList : List PyLit → Rendered
  | plain : PyStr → Rendered

def display_markdown_text (litEval : PyStr → Option PyLit) (text : PyStr) : Rendered :=
  match litEval text with
  | some (PyLit.list items) =>
      if items.all isDict then Rendered.recordList items
      else Rendered.plain (escape_special_chars text)
  | some _ => Rendered.plain (escape_special_chars text)
  | none => Rendered.plain (escape_special_chars text)

/-- C9: if the text parses as a literal that is not a list of dictionaries,
or fails to parse at all, `display_markdown_text` renders it as escaped
plain markdown — never as a record list and never surfacing an error. -/
theorem C9_non_list_or_parse_failure_renders_plain
    (litEval : PyStr → Option PyLit) (text : PyStr)
    (h : (∃ p, litEval text = some p ∧ isListOfDicts p = false)
      ∨ litEval text = none) :
    display_markdown_text litEval text = Rendered.plain (escape_special_chars text) := by
  unfold display_markdown_text
  rcases h with ⟨p, hp, hnot⟩ | hn
  · cases p with
    | list items =>
      rw [hp]
      have hfalse : items.all isDict = false := hnot
      simp [hfalse]
    | none => rw [hp]
    | bool b => rw [hp]
    | int i => rw [hp]
    | str s => rw [hp]
    | dict kvs => rw [hp]
  · rw [hn]

def constIntEval : PyStr → Option PyLit := fun _ => some (PyLit.int 5)

/-- The string `"5"` parses to the integer literal 5 (not a list of dicts)
and is rendered as escaped plain text. -/
theorem C9_non_list_or_parse_failure_renders_plain_witness :
    ((∃ p, constIntEval [53] = some p ∧ isListOfDicts p = false)
      ∨ constIntEval [53] = none)
    ∧ display_markdown_text constIntEval [53]
        = Rendered.plain (escape_special_chars [53]) :=
  ⟨Or.inl ⟨PyLit.int 5, rfl, rfl⟩,
   C9_non_list_or_parse_failure_renders_plain constIntEval [53]
     (Or.inl ⟨PyLit.int 5, rfl, rfl⟩)⟩
